import Mathlib

/-!
# A verification development for the DarkVM virtual machine

This file gives a shallow embedding, in Lean 4, of the core of the DarkVM
stack-based virtual machine (a Rust program), together with theorems about
the embedded definitions.  The embedding covers:

* the IEEE-754 double values as far as the program observes them
  (`Float64`, a tagged model with NaN, infinities and finite dyadic values
  represented as rationals; arithmetic on finite values is modelled as
  exact rational arithmetic — every concrete input used in a theorem below
  is chosen so that the modelled operation is exact in `f64` as well);
* the error model (`ErrorKind`, `Error` from `errors/error_kind.rs` and
  `utils/error.rs`);
* tokens and values (`tokens/token_kind.rs`, `values/value_kinds.rs`,
  `values/value.rs`) with the arithmetic/comparison methods of
  `values/value.rs`;
* the generic stack (`utils/stack.rs`), stores and frames
  (`utils/store.rs`, `utils/frames.rs`; the `Rc<RefCell<Store>>` sharing
  is modelled with an explicit heap of stores addressed by index);
* the program loader and the code object (`code.rs`);
* the evaluator (`vm.rs`), as a fuel-indexed step function;
* the lexer (`lexer.rs`), as a recursive function over the character list.
-/

deriving instance DecidableEq for Except

namespace DarkVM

/-! ## A model of `f64`

The program stores `f64` values and observes them through: subtraction of
`0.0`, subtraction of another float, `abs`, `<` comparison against
`std::f64::EPSILON`, `is_normal`, division, and promotion from `i64`.
We model an `f64` as either NaN, a signed infinity, or a finite value.
Finite values are represented by exact rationals; the finite arithmetic
below is exact rational arithmetic (real `f64` arithmetic rounds to the
nearest representable dyadic; all concrete inputs used by theorems in this
file are small dyadics on which the two agree).  `is_normal` holds for a
finite value exactly when its magnitude is at least `2^-1022`, the
smallest positive normal double. -/
inductive Float64 where
  | nan : Float64
  | inf (positive : Bool) : Float64
  | finite (q : ℚ) : Float64
deriving DecidableEq

/-- `std::f64::EPSILON` is exactly `2^-52`. -/
def f64Epsilon : ℚ := 1 / 2 ^ 52

namespace Float64

/-- `f64` subtraction.  On finite values it is modelled as exact rational
subtraction; the program only ever subtracts `0.0` (exact for every input)
or compares the result with `EPSILON` at concrete dyadic points. -/
def sub : Float64 → Float64 → Float64
  | nan, _ => nan
  | _, nan => nan
  | inf s, inf t => if s = t then nan else inf s
  | inf s, finite _ => inf s
  | finite _, inf s => inf (!s)
  | finite a, finite b => finite (a - b)

/-- `f64::abs`. -/
def abs : Float64 → Float64
  | nan => nan
  | inf _ => inf true
  | finite a => finite |a|

/-- The `<` comparison on `f64`: any comparison with NaN is false. -/
def lt : Float64 → Float64 → Bool
  | nan, _ => false
  | _, nan => false
  | inf s, inf t => !s && t
  | inf s, finite _ => !s
  | finite _, inf t => t
  | finite a, finite b => decide (a < b)

/-- `f64::is_normal`: true exactly for finite values whose magnitude is at
least the smallest positive normal double, `2^-1022`.  In particular zero,
subnormal values, infinities and NaN are not normal. -/
def isNormal : Float64 → Bool
  | finite q => decide ((1 : ℚ) / 2 ^ 1022 ≤ |q|)
  | _ => false

/-- `f64` division, used only after the zero tests of `Value::div` have
been passed (so a finite/zero division can still occur and produces a
signed infinity, as in IEEE-754). -/
def div : Float64 → Float64 → Float64
  | nan, _ => nan
  | _, nan => nan
  | inf _, inf _ => nan
  | inf s, finite b => if 0 ≤ b then inf s else inf (!s)
  | finite _, inf _ => finite 0
  | finite a, finite b =>
    if b = 0 then (if a = 0 then nan else if 0 ≤ a then inf true else inf false)
    else finite (a / b)

/-- `i64 as f64` promotion (exact for every `i64` of magnitude below
`2^53`; all integers appearing in the theorems below are tiny). -/
def ofInt (i : ℤ) : Float64 := finite i

end Float64

/-! ## The error model (`errors/error_kind.rs`, `utils/error.rs`) -/

/-- The error kinds of `errors/error_kind.rs`.  The last two constructors,
`Panic` and `OutOfFuel`, are modelling artifacts and not error kinds of the
source: `Panic` models a Rust `unwrap()` panic (reachable in the source only
through paths none of the verified claims exercise), and `OutOfFuel` is the
result of exhausting the fuel of the fuel-indexed evaluator below. -/
inductive ErrorKind where
  | UnrecognizedArgument (arg : String)
  | UnknownCharacter
  | InvalidNumberFormat
  | InvalidLabelName
  | UnterminatedString
  | DuplicateLabel
  | NoMainLabel
  | EndWithoutLabel
  | EmptyStack
  | ExpectedArgs (amount : Nat)
  | ValueMismatch (expected : String) (actual : String)
  | UnsupportedOperation (operation : String) (operands : String)
  | NoEndOfLabel
  | DivisionByZero
  | OutOfBounds (beginning : Nat) (ending : Nat)
  | UndefinedVariable
  | UndefinedLabel
  | Panic
  | OutOfFuel
deriving DecidableEq

/-- `utils/error.rs`: an error kind together with an optional position. -/
structure Error where
  kind : ErrorKind
  position : Option Nat
deriving DecidableEq

/-- `Error::new`. -/
def Error.new (kind : ErrorKind) (position : Nat) : Error := ⟨kind, some position⟩

/-- `Error::message_only`. -/
def Error.message_only (kind : ErrorKind) : Error := ⟨kind, none⟩

/-! ## Tokens and values

The repository holds several evolutionary copies of the token/value enums;
following the spec we use the most feature-complete revision
(`tokens/token_kind.rs`, `values/value_kinds.rs`).  The `value` field of
`utils/parameter.rs`'s `Parameter` is omitted: no code path of this
revision ever constructs or reads it (the lexer of this revision produces
labels with an empty parameter list), and keeping it would make the value
type mutually recursive for no observable difference. -/

/-- An alias for `String`, needed where the surrounding namespace would
otherwise resolve the name to the `ValueKind.String` constructor. -/
abbrev Str : Type := String

/-- `utils/parameter.rs` (without the never-used `value` field). -/
structure Parameter where
  pos : Nat
  name : String
deriving DecidableEq

/-- `tokens/token_kind.rs`. -/
inductive TokenKind where
  | Void
  | Any
  | IntegerLiteral (value : ℤ)
  | FloatLiteral (value : Float64)
  | BooleanLiteral (value : Bool)
  | StringLiteral (value : String)
  | Identifier (name : String)
  | Label (name : String) (parameters : List Parameter)
  | End
  | Push
  | Pop
  | Peek
  | Add
  | Sub
  | Mul
  | Div
  | Mod
  | LessThan
  | LessThanEqual
  | GreaterThan
  | GreaterThanEqual
  | Equal
  | NotEqual
  | Jump
  | RelativeJump
  | JumpIfTrue
  | JumpIfFalse
  | RelativeJumpIfTrue
  | RelativeJumpIfFalse
  | Print
  | PrintNewLine
  | Set
  | Call
deriving DecidableEq

/-- `Token` (`tokens/token_kind.rs`). -/
structure Token where
  kind : TokenKind
  pos : Nat
deriving DecidableEq

/-- `Token::new`. -/
def Token.new (kind : TokenKind) (pos : Nat) : Token := ⟨kind, pos⟩

/-- `values/value_kinds.rs`. -/
inductive ValueKind where
  | Void
  | Any
  | Int (value : ℤ)
  | Float (value : Float64)
  | Boolean (value : Bool)
  | String (value : String)
  | Identifier (name : String)
  | Label (name : String) (parameters : List Parameter)
  | End
  | Push
  | Pop
  | Peek
  | Add
  | Sub
  | Mul
  | Div
  | Mod
  | LessThan
  | LessThanEqual
  | GreaterThan
  | GreaterThanEqual
  | Equal
  | NotEqual
  | Jump
  | RelativeJump
  | JumpIfTrue
  | JumpIfFalse
  | RelativeJumpIfTrue
  | RelativeJumpIfFalse
  | Print
  | PrintNewLine
  | Set
  | Call
deriving DecidableEq

/-- `ValueKind::get_value_name` (`values/value_kinds.rs`). -/
def ValueKind.get_value_name : ValueKind → Str
  | .Void => "Void"
  | .Any => "Any"
  | .Int _ => "Int"
  | .Float _ => "Float"
  | .Boolean _ => "Boolean"
  | .String _ => "String"
  | .Identifier _ => "Identifier"
  | .Label _ _ => "Label"
  | .End => "End"
  | .Push => "Instruction Push"
  | .Pop => "Instruction Pop"
  | .Peek => "Instruction Peek"
  | .Add => "Instruction Add"
  | .Sub => "Instruction Sub"
  | .Mul => "Instruction Mul"
  | .Div => "Instruction Div"
  | .Mod => "Instruction Mod"
  | .LessThan => "Instruction LessThan"
  | .LessThanEqual => "Instruction LessThanEqual"
  | .GreaterThan => "Instruction GreaterThan"
  | .GreaterThanEqual => "Instruction GreaterThanEqual"
  | .Equal => "Instruction Equal"
  | .NotEqual => "Instruction NotEqual"
  | .Jump => "Instruction Jump"
  | .RelativeJump => "Instruction JumpRelative"
  | .JumpIfTrue => "Instruction JumpIfTrue"
  | .JumpIfFalse => "Instruction JumpIfFalse"
  | .RelativeJumpIfTrue => "Instruction RelativeJumpIfTrue"
  | .RelativeJumpIfFalse => "Instruction RelativeJumpIfFalse"
  | .Print => "Instruction Print"
  | .PrintNewLine => "Instruction PrintNewLine"
  | .Set => "Instruction Set"
  | .Call => "Instruction Call"

/-- `Value` (`values/value.rs`). -/
structure Value where
  pos : Nat
  kind : ValueKind
deriving DecidableEq

/-- `Value::new`. -/
def Value.new (pos : Nat) (kind : ValueKind) : Value := ⟨pos, kind⟩

/-- An apostrophe, built numerically to keep source scanning simple. -/
def aposChar : Char := Char.ofNat 39

/-- Wraps a string in apostrophes, as the error format strings do. -/
def quoted (s : String) : String :=
  String.singleton aposChar ++ s ++ String.singleton aposChar

/-- The custom `fmt::Debug` rendering of a `ValueKind`
(`values/value_kinds.rs`).  The rendering of a finite float and of the
parameter list of a label approximates the Rust `Display` output; neither
is observed by any verified claim (this string only feeds `print` output
and the string-concatenation arms of `Value::add`/`Value::mul`, never a
branching decision). -/
def ValueKind.debugString : ValueKind → Str
  | .Void => "Void"
  | .Any => "Any"
  | .Int value => toString value
  | .Float .nan => "NaN"
  | .Float (.inf true) => "inf"
  | .Float (.inf false) => "-inf"
  | .Float (.finite q) => toString q
  | .Boolean value => cond value "true" "false"
  | .String value => value
  | .Identifier name => "Identifier " ++ quoted name
  | .Label name _ => "Label " ++ quoted name
  | .End => "End"
  | .Push => "<instruction push>"
  | .Pop => "<instruction pop>"
  | .Peek => "<instruction peek>"
  | .Add => "<instruction add>"
  | .Sub => "<instruction sub>"
  | .Mul => "<instruction mul>"
  | .Div => "<instruction div>"
  | .Mod => "<instruction mod>"
  | .LessThan => "<instruction lt>"
  | .LessThanEqual => "<instruction lte>"
  | .GreaterThan => "<instruction gt>"
  | .GreaterThanEqual => "<instruction gte>"
  | .Equal => "<instruction eq>"
  | .NotEqual => "<instruction neq>"
  | .Jump => "<instruction jmp>"
  | .RelativeJump => "<instruction rjmp>"
  | .JumpIfTrue => "<instruction jmpt>"
  | .JumpIfFalse => "<instruction jmpf>"
  | .RelativeJumpIfTrue => "<instruction rjmpt>"
  | .RelativeJumpIfFalse => "<instruction rjmpf>"
  | .Print => "<instruction print>"
  | .PrintNewLine => "<instruction printn>"
  | .Set => "<instruction set>"
  | .Call => "<instruction call>"

/-- The `fmt::Debug` rendering of a `Value` delegates to its kind
(`values/value.rs`). -/
def Value.debugString (v : Value) : String := v.kind.debugString

/-- The operand description built by the `UnsupportedOperation` arms of the
arithmetic methods of `values/value.rs`. -/
def unsupportedOperands (a b : ValueKind) : String :=
  "The Value " ++ quoted a.get_value_name ++ " And The Value " ++
    quoted b.get_value_name ++ "."

/-- `f64` addition on the model (exact on finite values; see the module
comment of `Float64`). -/
def Float64.add : Float64 → Float64 → Float64
  | .nan, _ => .nan
  | _, .nan => .nan
  | .inf s, .inf t => if s = t then .inf s else .nan
  | .inf s, .finite _ => .inf s
  | .finite _, .inf t => .inf t
  | .finite a, .finite b => .finite (a + b)

/-- `Value::add` (`values/value.rs`).  The two Rust guard clauses
`if self.kind != ValueKind::Void` are encoded by splitting the guarded arm
into a `Void` arm (which falls through to the error, as the failed guard
does in Rust) followed by the unguarded arm. -/
def Value.add (v : Value) (other : Value) (pos : Nat) : Except Error Value :=
  match v.kind, other.kind with
  | .String val1, .String val2 => .ok (Value.new pos (.String (val1 ++ val2)))
  | .Void, .String _ =>
    .error (Error.new (.UnsupportedOperation "Add"
      (unsupportedOperands v.kind other.kind)) pos)
  | _, .String val2 => .ok (Value.new pos (.String (v.debugString ++ val2)))
  | .String _, .Void =>
    .error (Error.new (.UnsupportedOperation "Add"
      (unsupportedOperands v.kind other.kind)) pos)
  | .String val1, _ => .ok (Value.new pos (.String (val1 ++ other.debugString)))
  | .Int val1, .Int val2 => .ok (Value.new pos (.Int (val1 + val2)))
  | .Int val1, .Float val2 =>
    .ok (Value.new pos (.Float (Float64.add (Float64.ofInt val1) val2)))
  | .Float val1, .Int val2 =>
    .ok (Value.new pos (.Float (Float64.add val1 (Float64.ofInt val2))))
  | .Float val1, .Float val2 =>
    .ok (Value.new pos (.Float (Float64.add val1 val2)))
  | _, _ =>
    .error (Error.new (.UnsupportedOperation "Add"
      (unsupportedOperands v.kind other.kind)) pos)

/-- `Value::sub` (`values/value.rs`). -/
def Value.sub (v : Value) (other : Value) (pos : Nat) : Except Error Value :=
  match v.kind, other.kind with
  | .Int val1, .Int val2 => .ok (Value.new pos (.Int (val1 - val2)))
  | .Int val1, .Float val2 =>
    .ok (Value.new pos (.Float (Float64.sub (Float64.ofInt val1) val2)))
  | .Float val1, .Int val2 =>
    .ok (Value.new pos (.Float (Float64.sub val1 (Float64.ofInt val2))))
  | .Float val1, .Float val2 => .ok (Value.new pos (.Float (Float64.sub val1 val2)))
  | _, _ =>
    .error (Error.new (.UnsupportedOperation "Sub"
      (unsupportedOperands v.kind other.kind)) pos)

/-- `str::repeat`. -/
def strRepeat (s : String) (n : Nat) : String := String.join (List.replicate n s)

/-- `f64` multiplication on the model (exact on finite values; see the
module comment of `Float64`). -/
def Float64.mul : Float64 → Float64 → Float64
  | .nan, _ => .nan
  | _, .nan => .nan
  | .inf s, .inf t => .inf (s = t)
  | .inf s, .finite b => if b = 0 then .nan else .inf (s = decide (0 < b))
  | .finite a, .inf t => if a = 0 then .nan else .inf (t = decide (0 < a))
  | .finite a, .finite b => .finite (a * b)

/-- `Value::mul` (`values/value.rs`).  The Rust guard on the
`(Int, String)` arm, `self.kind != ValueKind::Void`, is vacuous (an `Int`
is never `Void`), so the arm is encoded unguarded. -/
def Value.mul (v : Value) (other : Value) (pos : Nat) : Except Error Value :=
  match v.kind, other.kind with
  | .String val1, .Int val2 =>
    .ok (Value.new pos (.String (strRepeat val1 val2.natAbs)))
  | .Int val1, .String val2 =>
    .ok (Value.new pos (.String (strRepeat val2 val1.natAbs)))
  | .Int val1, .Int val2 => .ok (Value.new pos (.Int (val1 * val2)))
  | .Int val1, .Float val2 =>
    .ok (Value.new pos (.Float (Float64.mul (Float64.ofInt val1) val2)))
  | .Float val1, .Int val2 =>
    .ok (Value.new pos (.Float (Float64.mul val1 (Float64.ofInt val2))))
  | .Float val1, .Float val2 => .ok (Value.new pos (.Float (Float64.mul val1 val2)))
  | _, _ =>
    .error (Error.new (.UnsupportedOperation "Mul"
      (unsupportedOperands v.kind other.kind)) pos)

/-- `Value::div` (`values/value.rs`).  Each arm is a direct transcription:
the integer arm tests the divisor against `0` (Rust `i64` division
truncates toward zero, `Int.tdiv`); the three float arms test
`x - 0.0 < std::f64::EPSILON` where `x` is the divisor in the
`(Int, Float)` and `(Float, Float)` arms but the *dividend* in the
`(Float, Int)` arm, exactly as in the source. -/
def Value.div (v : Value) (other : Value) (pos : Nat) : Except Error Value :=
  match v.kind, other.kind with
  | .Int val1, .Int val2 =>
    if val2 = 0 then .error (Error.new .DivisionByZero pos)
    else .ok (Value.new pos (.Int (Int.tdiv val1 val2)))
  | .Int val1, .Float val2 =>
    if Float64.lt (Float64.sub val2 (.finite 0)) (.finite f64Epsilon) then
      .error (Error.new .DivisionByZero pos)
    else .ok (Value.new pos (.Float (Float64.div (Float64.ofInt val1) val2)))
  | .Float val1, .Int val2 =>
    if Float64.lt (Float64.sub val1 (.finite 0)) (.finite f64Epsilon) then
      .error (Error.new .DivisionByZero pos)
    else .ok (Value.new pos (.Float (Float64.div val1 (Float64.ofInt val2))))
  | .Float val1, .Float val2 =>
    if Float64.lt (Float64.sub val2 (.finite 0)) (.finite f64Epsilon) then
      .error (Error.new .DivisionByZero pos)
    else .ok (Value.new pos (.Float (Float64.div val1 val2)))
  | _, _ =>
    .error (Error.new (.UnsupportedOperation "Div"
      (unsupportedOperands v.kind other.kind)) pos)

/-- `Value::lt` (`values/value.rs`).  String comparison is the Rust `<` on
`String`, i.e. lexicographic byte order; the model compares the character
lists lexicographically, which agrees on ASCII data. -/
def Value.lt (v : Value) (other : Value) (pos : Nat) : Except Error Value :=
  match v.kind, other.kind with
  | .Int val1, .Int val2 => .ok (Value.new pos (.Boolean (decide (val1 < val2))))
  | .Float val1, .Float val2 => .ok (Value.new pos (.Boolean (Float64.lt val1 val2)))
  | .String val1, .String val2 =>
    .ok (Value.new pos (.Boolean (decide (val1 < val2))))
  | _, _ =>
    .error (Error.new (.UnsupportedOperation "Lt"
      (unsupportedOperands v.kind other.kind)) pos)

/-- The `<=` comparison on the `f64` model. -/
def Float64.le : Float64 → Float64 → Bool
  | .nan, _ => false
  | _, .nan => false
  | .inf s, .inf t => !s || t
  | .inf s, .finite _ => !s
  | .finite _, .inf t => t
  | .finite a, .finite b => decide (a ≤ b)

/-- `Value::lte` (`values/value.rs`). -/
def Value.lte (v : Value) (other : Value) (pos : Nat) : Except Error Value :=
  match v.kind, other.kind with
  | .Int val1, .Int val2 => .ok (Value.new pos (.Boolean (decide (val1 ≤ val2))))
  | .Float val1, .Float val2 => .ok (Value.new pos (.Boolean (Float64.le val1 val2)))
  | .String val1, .String val2 =>
    .ok (Value.new pos (.Boolean (decide (val1 ≤ val2))))
  | _, _ =>
    .error (Error.new (.UnsupportedOperation "Lte"
      (unsupportedOperands v.kind other.kind)) pos)

/-- `Value::gt` (`values/value.rs`). -/
def Value.gt (v : Value) (other : Value) (pos : Nat) : Except Error Value :=
  match v.kind, other.kind with
  | .Int val1, .Int val2 => .ok (Value.new pos (.Boolean (decide (val2 < val1))))
  | .Float val1, .Float val2 => .ok (Value.new pos (.Boolean (Float64.lt val2 val1)))
  | .String val1, .String val2 =>
    .ok (Value.new pos (.Boolean (decide (val2 < val1))))
  | _, _ =>
    .error (Error.new (.UnsupportedOperation "Gt"
      (unsupportedOperands v.kind other.kind)) pos)

/-- `Value::gte` (`values/value.rs`). -/
def Value.gte (v : Value) (other : Value) (pos : Nat) : Except Error Value :=
  match v.kind, other.kind with
  | .Int val1, .Int val2 => .ok (Value.new pos (.Boolean (decide (val2 ≤ val1))))
  | .Float val1, .Float val2 => .ok (Value.new pos (.Boolean (Float64.le val2 val1)))
  | .String val1, .String val2 =>
    .ok (Value.new pos (.Boolean (decide (val2 ≤ val1))))
  | _, _ =>
    .error (Error.new (.UnsupportedOperation "Gte"
      (unsupportedOperands v.kind other.kind)) pos)

/-- `Value::equal` (`values/value.rs`): total, never an error.  The float
arm is `(val1 - val2).abs() < std::f64::EPSILON`. -/
def Value.equal (v : Value) (other : Value) (pos : Nat) : Value :=
  match v.kind, other.kind with
  | .Int val1, .Int val2 => Value.new pos (.Boolean (decide (val1 = val2)))
  | .Float val1, .Float val2 =>
    Value.new pos (.Boolean (Float64.lt (Float64.abs (Float64.sub val1 val2))
      (.finite f64Epsilon)))
  | .Boolean val1, .Boolean val2 => Value.new pos (.Boolean (val1 == val2))
  | .String val1, .String val2 => Value.new pos (.Boolean (decide (val1 = val2)))
  | _, _ => Value.new pos (.Boolean false)

/-- `Value::not_equal` (`values/value.rs`): total, never an error.  The
float arm is `(val1 - val2).abs() > std::f64::EPSILON` (note: strict
`>`, not the negation of `equal`'s `<`). -/
def Value.not_equal (v : Value) (other : Value) (pos : Nat) : Value :=
  match v.kind, other.kind with
  | .Int val1, .Int val2 => Value.new pos (.Boolean (decide (¬val1 = val2)))
  | .Float val1, .Float val2 =>
    Value.new pos (.Boolean (Float64.lt (.finite f64Epsilon)
      (Float64.abs (Float64.sub val1 val2))))
  | .Boolean val1, .Boolean val2 => Value.new pos (.Boolean (!(val1 == val2)))
  | .String val1, .String val2 => Value.new pos (.Boolean (decide (¬val1 = val2)))
  | _, _ => Value.new pos (.Boolean true)

/-- `Value::is_truthy` (`values/value.rs`): ints are truthy iff nonzero,
floats iff `f64::is_normal`, booleans are themselves, strings iff
non-empty, everything else is falsy. -/
def Value.is_truthy (v : Value) : Bool :=
  match v.kind with
  | .Int value => decide (¬value = 0)
  | .Float value => value.isNormal
  | .Boolean value => value
  | .String value => !value.isEmpty
  | _ => false

/-- The `From<Token> for Value` projection (`values/value.rs`).  The
`From` implementation of this revision has no arms for `Mod`,
`RelativeJumpIfTrue` and `RelativeJumpIfFalse` (its match is not
exhaustive for the feature-complete token enum); those kinds are mapped to
their direct `ValueKind` counterparts, which is the only possible
completion and is unreachable from every verified claim. -/
def tokenToValue (token : Token) : Value :=
  { pos := token.pos
    kind :=
      match token.kind with
      | .Void => .Void
      | .Any => .Any
      | .IntegerLiteral value => .Int value
      | .FloatLiteral value => .Float value
      | .BooleanLiteral value => .Boolean value
      | .StringLiteral value => .String value
      | .Identifier name => .Identifier name
      | .Label name parameters => .Label name parameters
      | .End => .End
      | .Push => .Push
      | .Pop => .Pop
      | .Peek => .Peek
      | .Add => .Add
      | .Sub => .Sub
      | .Mul => .Mul
      | .Div => .Div
      | .Mod => .Mod
      | .LessThan => .LessThan
      | .LessThanEqual => .LessThanEqual
      | .GreaterThan => .GreaterThan
      | .GreaterThanEqual => .GreaterThanEqual
      | .Equal => .Equal
      | .NotEqual => .NotEqual
      | .Jump => .Jump
      | .RelativeJump => .RelativeJump
      | .JumpIfTrue => .JumpIfTrue
      | .JumpIfFalse => .JumpIfFalse
      | .RelativeJumpIfTrue => .RelativeJumpIfTrue
      | .RelativeJumpIfFalse => .RelativeJumpIfFalse
      | .Print => .Print
      | .PrintNewLine => .PrintNewLine
      | .Set => .Set
      | .Call => .Call }

/-! ## The stack (`utils/stack.rs`)

`Stack<T>` wraps a `Vec<T>`; we model the `Vec` as a list in the same
order, so index 0 is the *bottom* of the stack: `push`/`pop` operate on
the end of the list, while `peek`/`peek_mut` call `Vec::first`, i.e.
return the element at index 0 — the bottom, not the top. -/

/-- `Stack::push` (appends at the `Vec`'s end). -/
def stackPush {α : Type} (s : List α) (v : α) : List α := s ++ [v]

/-- `Stack::pop` (removes from the `Vec`'s end; `EmptyStack` error at
`pos` when empty). -/
def stackPop {α : Type} (s : List α) (pos : Nat) : Except Error (α × List α) :=
  match s.getLast? with
  | some v => .ok (v, s.dropLast)
  | none => .error (Error.new .EmptyStack pos)

/-- `Stack::peek` and `Stack::peek_mut`: both call `Vec::first` (resp.
`first_mut`) — the element at index 0, i.e. the bottom of the stack. -/
def stackPeek {α : Type} (s : List α) : Option α := s.head?

/-- `Stack::is_empty`. -/
def stackIsEmpty {α : Type} (s : List α) : Bool := s.isEmpty

/-! ## Stores and frames (`utils/store.rs`, `utils/frames.rs`)

A `Store` is shared through `Rc<RefCell<_>>` in the source; we model the
sharing with an explicit heap (`List Store`) addressed by index, each
`Frame` holding the index of its store and each `Store` optionally the
index of its parent.  Parents are always allocated before children, so a
chain walk of `stores.length` steps always suffices. -/

/-- `utils/store.rs`, with the parent link as a heap index. -/
structure Store where
  parent_store : Option Nat
  store : List (String × Value)
deriving DecidableEq

/-- Insertion into the `HashMap` backing a store: replaces an existing
binding of the name, otherwise adds one. -/
def assocSet (m : List (String × Value)) (name : String) (v : Value) :
    List (String × Value) :=
  if (List.lookup name m).isSome then
    m.map (fun p => if p.1 = name then (name, v) else p)
  else m ++ [(name, v)]

/-- `Store::define`. -/
def Store.define (s : Store) (name : String) (value : Value) : Store :=
  { s with store := assocSet s.store name value }

/-- `Store::get`: the local binding if present, else the parent chain,
else `UndefinedVariable` at `pos`.  `fuel` bounds the chain walk (pass
`stores.length`; parents are allocated before children, so the chain never
cycles); a dangling store index models as a `Panic` (it cannot occur). -/
def storeGet (stores : List Store) : Nat → Nat → String → Nat → Except Error Value
  | 0, _, _, _ => .error (Error.message_only .OutOfFuel)
  | fuel + 1, sid, name, pos =>
    match stores[sid]? with
    | none => .error (Error.message_only .Panic)
    | some st =>
      match List.lookup name st.store with
      | some v => .ok v
      | none =>
        match st.parent_store with
        | some parent => storeGet stores fuel parent name pos
        | none => .error (Error.new .UndefinedVariable pos)

/-- Defines `name` in the store at heap index `sid` (the effect of
`Frame::define` through the `RefCell`). -/
def storesDefine (stores : List Store) (sid : Nat) (name : String) (v : Value) :
    List Store :=
  match stores[sid]? with
  | some st => stores.set sid (st.define name v)
  | none => stores

/-- `utils/frames.rs`, with the store as a heap index. -/
structure Frame where
  caller_position : Nat
  name : String
  current_store : Nat
deriving DecidableEq

/-- `Frame::new`: allocates a fresh store (with the given parent) on the
heap and returns the frame pointing at it. -/
def allocFrame (stores : List Store) (caller_position : Nat) (name : String)
    (parent_store : Option Nat) : Frame × List Store :=
  (⟨caller_position, name, stores.length⟩, stores ++ [⟨parent_store, []⟩])

/-! ## The code object and the loader (`code.rs`) -/

/-- `utils/label.rs`. -/
structure Label where
  start_pos : Nat
  end_pos : Nat
  parameters : List Parameter
deriving DecidableEq

/-- The label table; the `HashMap<String, Label>` is modelled as an
association list with distinct keys (lookups take the first match). -/
abbrev LabelMap : Type := List (String × Label)

/-- `HashMap::insert`: returns the previous binding of the key (if any)
together with the updated map. -/
def insertLabel (m : LabelMap) (name : String) (lbl : Label) :
    Option Label × LabelMap :=
  match List.lookup name m with
  | some old => (some old, m.map (fun p => if p.1 = name then (name, lbl) else p))
  | none => (none, m ++ [(name, lbl)])

/-- The label-resolution loop of `Code::new`/`Code::repl` (`code.rs`,
the `for (pos, token)` loop): `rest` is the remaining input and `i` the
index of its first token in the full sequence.  The pending-label `Vec`
is modelled with its most recently pushed entry at the head.  The value
vector built alongside is always the pointwise `tokenToValue` image of
the tokens, so it is reconstructed afterwards instead of being threaded
through. -/
def loadLabels : List Token → Nat → List (Nat × Nat × String × List Parameter) →
    LabelMap → Except Error LabelMap
  | [], _, labelStack, labels =>
    -- after the loop: a pending label means a missing `end`, reported at
    -- the most recently pushed remaining label (`label_stack.pop()`)
    match labelStack with
    | [] => .ok labels
    | (_, last_pos, _, _) :: _ => .error (Error.new .NoEndOfLabel last_pos)
  | token :: rest, i, labelStack, labels =>
    match token.kind with
    | .Label name parameters =>
      loadLabels rest (i + 1) ((i, token.pos, name, parameters) :: labelStack) labels
    | .End =>
      match labelStack with
      | [] => .error (Error.new .EndWithoutLabel token.pos)
      | (last_start, last_pos, last_name, last_parameters) :: stackRest =>
        match insertLabel labels last_name ⟨last_start, i, last_parameters⟩ with
        | (some _, _) => .error (Error.new .DuplicateLabel last_pos)
        | (none, labels') => loadLabels rest (i + 1) stackRest labels'
    | _ => loadLabels rest (i + 1) labelStack labels

/-- `code.rs`. -/
structure Code where
  value_pointer : Nat
  values : List Value
  labels : LabelMap
deriving DecidableEq

/-- `Code::new`: resolve the labels, require a `main` label, and start at
the value right after the `@main` marker. -/
def Code.new (tokens : List Token) : Except Error Code :=
  match loadLabels tokens 0 [] [] with
  | .error e => .error e
  | .ok labels =>
    match List.lookup "main" labels with
    | some lbl => .ok ⟨lbl.start_pos + 1, tokens.map tokenToValue, labels⟩
    | none => .error (Error.message_only .NoMainLabel)

/-- `Code::jump`: sets the pointer to `jump_location` when
`0 ≤ jump_location ≤ values.len()`; otherwise `OutOfBounds(0, len + 1)`
at `pos` and the pointer is unchanged. -/
def Code.jump (c : Code) (jump_location : ℤ) (pos : Nat) : Option Error × Code :=
  let upper_bound : ℤ := c.values.length
  if 0 ≤ jump_location ∧ jump_location ≤ upper_bound then
    (none, { c with value_pointer := jump_location.toNat })
  else
    (some (Error.new (.OutOfBounds 0 (c.values.length + 1)) pos), c)

/-- `Code::relative_jump`: accepts `jump_location` in
`[-value_pointer, values.len()]` and moves the pointer by it; otherwise
`OutOfBounds(lower_bound as usize, len)` at `pos` (the `as usize` cast of
the negative lower bound wraps modulo `2^64`) and the pointer is
unchanged. -/
def Code.relative_jump (c : Code) (jump_location : ℤ) (pos : Nat) :
    Option Error × Code :=
  let lower_bound : ℤ := -(c.value_pointer : ℤ)
  let upper_bound : ℤ := c.values.length
  if lower_bound ≤ jump_location ∧ jump_location ≤ upper_bound then
    if jump_location < 0 then
      (none, { c with value_pointer := c.value_pointer - (-jump_location).toNat })
    else
      (none, { c with value_pointer := c.value_pointer + jump_location.toNat })
  else
    (some (Error.new (.OutOfBounds (lower_bound % (2 ^ 64 : ℤ)).toNat
      c.values.length) pos), c)

/-- `Code::set_label_location`: looks the label up, moves the pointer to
`start_pos + 1` and returns the label's span; `UndefinedLabel` at `pos`
when absent. -/
def Code.set_label_location (c : Code) (label_name : String) (pos : Nat) :
    Except Error ((Nat × Nat) × Code) :=
  match List.lookup label_name c.labels with
  | some lbl =>
    .ok ((lbl.start_pos, lbl.end_pos), { c with value_pointer := lbl.start_pos + 1 })
  | none => .error (Error.new .UndefinedLabel pos)

/-- `Code::get_label_start_end`. -/
def Code.get_label_start_end (c : Code) (label_name : String) : Option (Nat × Nat) :=
  (List.lookup label_name c.labels).map (fun lbl => (lbl.start_pos, lbl.end_pos))

/-- `Code::get_current_pos`. -/
def Code.get_current_pos (c : Code) : Nat := c.value_pointer

/-- `Code::is_finished`. -/
def Code.is_finished (c : Code) : Bool := decide (c.values.length ≤ c.value_pointer)

/-- The `Iterator::next` implementation of `Code`: increments the pointer
and returns the value that was under it (the increment happens even when
the read fails). -/
def Code.next (c : Code) : Option Value × Code :=
  (c.values[c.value_pointer]?, { c with value_pointer := c.value_pointer + 1 })

/-! ## The evaluator (`vm.rs`)

The VM owns the code, the operand stack, the call stack, and (in the
model) the heap of stores.  `evaluate_value` recursively evaluates
instruction arguments (`get_arg`), so the evaluator takes a fuel
parameter; a single nested evaluation chain reads the value stream
strictly forward, so `values.length + 1` fuel always suffices for one
dispatch, and the driver below supplies exactly that. -/

/-- The VM state (`vm.rs`), with the store heap made explicit. -/
structure VM where
  code : Code
  operand_stack : List Value
  call_stack : List Frame
  stores : List Store
deriving DecidableEq

/-- `VM::is_finished`. -/
def VM.finished (vm : VM) : Bool := vm.code.is_finished || stackIsEmpty vm.call_stack

/-- The skip-to-`end` loop of the `ValueKind::Label` arm of
`evaluate_value`: repeatedly `next()` until an `End` value is consumed
(second component `true`) or the stream runs out (`false`). -/
def skipToEnd (c : Code) : Code × Bool :=
  match h : c.values[c.value_pointer]? with
  | none => ({ c with value_pointer := c.value_pointer + 1 }, false)
  | some v =>
    if v.kind = .End then ({ c with value_pointer := c.value_pointer + 1 }, true)
    else skipToEnd { c with value_pointer := c.value_pointer + 1 }
termination_by c.values.length - c.value_pointer
decreasing_by
  have hi : c.value_pointer < c.values.length := by
    by_contra hge
    simp [List.getElem?_eq_none (Nat.le_of_not_lt hge)] at h
  omega

/-- `VM::get_arg_unevaluated`: reads the next value without evaluating
it; `ExpectedArgs` at `pos` when the stream is exhausted. -/
def getArgUnevaluated (vm : VM) (expected_args : Nat) (pos : Nat) :
    Except Error (VM × Nat × Value) :=
  match vm.code.next with
  | (none, _) => .error (Error.new (.ExpectedArgs expected_args) pos)
  | (some arg, code') => .ok ({ vm with code := code' }, arg.pos, arg)

/-- The shared body of `VM::add`/`sub`/`mul`/`div`: pop two operands (the
first popped is the left operand) and apply the value method.  The
`ValueMismatch` arms of those four methods are unreachable — `VM::pop`
always pairs its `Ok` with `Some` — so they have no counterpart here. -/
def arithStackOp (vm : VM) (pos : Nat)
    (op : Value → Value → Nat → Except Error Value) :
    Except Error (VM × Option Value) :=
  match stackPop vm.operand_stack pos with
  | .error e => .error e
  | .ok (operand1, rest1) =>
    match stackPop rest1 pos with
    | .error e => .error e
    | .ok (operand2, rest2) =>
      match op operand1 operand2 pos with
      | .error e => .error e
      | .ok v => .ok ({ vm with operand_stack := rest2 }, some v)

mutual

/-- `VM::evaluate_value` (`vm.rs`), fuel-indexed.  The `Identifier` and
`Set` arms use `call_stack.peek()` / `peek_mut()` — `Vec::first`, the
bottom frame — and `unwrap` the result (a `Panic` on an empty call
stack).  The source match has no arms for `Mod`, `RelativeJumpIfTrue`
and `RelativeJumpIfFalse` (it predates them); they model as `Panic`. -/
def evaluateValue : Nat → VM → Value → Except Error (VM × Option Value)
  | 0, _, _ => .error (Error.message_only .OutOfFuel)
  | fuel + 1, vm, value =>
    match value.kind with
    | .Void => .ok (vm, none)
    | .Any => .ok (vm, none)
    | .Int _ => .ok (vm, some value)
    | .Float _ => .ok (vm, some value)
    | .Boolean _ => .ok (vm, some value)
    | .String _ => .ok (vm, some value)
    | .Identifier name =>
      match stackPeek vm.call_stack with
      | none => .error (Error.message_only .Panic)
      | some frame =>
        match storeGet vm.stores vm.stores.length frame.current_store name value.pos with
        | .error e => .error e
        | .ok v => .ok (vm, some v)
    | .Label _ _ =>
      match skipToEnd vm.code with
      | (code', true) => .ok ({ vm with code := code' }, none)
      | (_, false) => .error (Error.new .NoEndOfLabel value.pos)
    | .End =>
      match stackPop vm.call_stack value.pos with
      | .error e => .error e
      | .ok (frame, rest) =>
        match Code.jump vm.code (frame.caller_position : ℤ) value.pos with
        | (some e, _) => .error e
        | (none, code') => .ok ({ vm with code := code', call_stack := rest }, none)
    | .Push => pushImpl fuel vm value.pos
    | .Pop =>
      match stackPop vm.operand_stack value.pos with
      | .error e => .error e
      | .ok (v, rest) => .ok ({ vm with operand_stack := rest }, some v)
    | .Peek =>
      match stackPeek vm.operand_stack with
      | none => .ok (vm, some (Value.new value.pos .Void))
      | some peeked => .ok (vm, some peeked)
    | .Add => arithStackOp vm value.pos Value.add
    | .Sub => arithStackOp vm value.pos Value.sub
    | .Mul => arithStackOp vm value.pos Value.mul
    | .Div => arithStackOp vm value.pos Value.div
    | .LessThan => cmpArgsOp fuel vm value.pos Value.lt
    | .LessThanEqual => cmpArgsOp fuel vm value.pos Value.lte
    | .GreaterThan => cmpArgsOp fuel vm value.pos Value.gt
    | .GreaterThanEqual => cmpArgsOp fuel vm value.pos Value.gte
    | .Equal => cmpArgsOp fuel vm value.pos (fun a b p => .ok (a.equal b p))
    | .NotEqual => cmpArgsOp fuel vm value.pos (fun a b p => .ok (a.not_equal b p))
    | .Jump => jmpImpl fuel vm value.pos
    | .RelativeJump => rjmpImpl fuel vm value.pos
    | .JumpIfTrue =>
      -- `VM::jmpt`: *peeks* (bottom of the operand stack); only the taken
      -- branch consumes the argument, the `_ => Ok(None)` arm does not.
      match stackPeek vm.operand_stack with
      | some v => if v.is_truthy then jmpImpl fuel vm value.pos else .ok (vm, none)
      | none => .error (Error.new .EmptyStack value.pos)
    | .JumpIfFalse =>
      match stackPeek vm.operand_stack with
      | some v => if !v.is_truthy then jmpImpl fuel vm value.pos else .ok (vm, none)
      | none => .error (Error.new .EmptyStack value.pos)
    | .Mod => .error (Error.message_only .Panic)
    | .RelativeJumpIfTrue => .error (Error.message_only .Panic)
    | .RelativeJumpIfFalse => .error (Error.message_only .Panic)
    | .Print => printImpl fuel vm value.pos
    | .PrintNewLine => printImpl fuel vm value.pos
    | .Set => setImpl fuel vm value.pos
    | .Call => callImpl fuel vm value.pos
termination_by structural fuel _ _ => fuel

/-- `VM::get_arg`: reads the next value and recursively evaluates it;
`ExpectedArgs` at `pos` when the stream is exhausted.  Returns the
argument's source position together with the evaluation result. -/
def getArg : Nat → VM → Nat → Nat → Except Error (VM × Nat × Option Value)
  | 0, _, _, _ => .error (Error.message_only .OutOfFuel)
  | fuel + 1, vm, expected_args, pos =>
    match vm.code.next with
    | (none, _) => .error (Error.new (.ExpectedArgs expected_args) pos)
    | (some arg, code') =>
      match evaluateValue fuel { vm with code := code' } arg with
      | .error e => .error e
      | .ok (vm', res) => .ok (vm', arg.pos, res)
termination_by structural fuel _ _ _ => fuel

/-- `VM::push`: evaluate the next argument and push it; a `None` argument
is a `ValueMismatch(Any, Void)` at the argument's position. -/
def pushImpl : Nat → VM → Nat → Except Error (VM × Option Value)
  | 0, _, _ => .error (Error.message_only .OutOfFuel)
  | fuel + 1, vm, pos =>
    match getArg fuel vm 1 pos with
    | .error e => .error e
    | .ok (vm', _, some v) =>
      .ok ({ vm' with operand_stack := stackPush vm'.operand_stack v }, none)
    | .ok (_, argPos, none) =>
      .error (Error.new (.ValueMismatch ValueKind.Any.get_value_name
        ValueKind.Void.get_value_name) argPos)
termination_by structural fuel _ _ => fuel

/-- The shared body of `VM::lt`/`lte`/`gt`/`gte`/`eq`/`neq`: evaluate two
inline arguments (the first is the left operand) and apply the value
method. -/
def cmpArgsOp : Nat → VM → Nat → (Value → Value → Nat → Except Error Value) →
    Except Error (VM × Option Value)
  | 0, _, _, _ => .error (Error.message_only .OutOfFuel)
  | fuel + 1, vm, pos, op =>
    match getArg fuel vm 2 pos with
    | .error e => .error e
    | .ok (vm1, argPos1, arg1) =>
      match getArg fuel vm1 1 pos with
      | .error e => .error e
      | .ok (vm2, argPos2, arg2) =>
        match arg1, arg2 with
        | some operand1, some operand2 =>
          match op operand1 operand2 pos with
          | .error e => .error e
          | .ok v => .ok ({ vm2 with operand_stack := vm2.operand_stack }, some v)
        | none, _ =>
          .error (Error.new (.ValueMismatch ValueKind.Any.get_value_name
            ValueKind.Void.get_value_name) argPos1)
        | _, none =>
          .error (Error.new (.ValueMismatch ValueKind.Any.get_value_name
            ValueKind.Void.get_value_name) argPos2)
termination_by structural fuel _ _ _ => fuel

/-- `VM::jmp`: evaluate one argument, require an `Int`, and perform an
absolute jump. -/
def jmpImpl : Nat → VM → Nat → Except Error (VM × Option Value)
  | 0, _, _ => .error (Error.message_only .OutOfFuel)
  | fuel + 1, vm, pos =>
    match getArg fuel vm 1 pos with
    | .error e => .error e
    | .ok (vm1, argPos1, some v) =>
      match v.kind with
      | .Int jump_location =>
        match Code.jump vm1.code jump_location pos with
        | (some e, _) => .error e
        | (none, code') => .ok ({ vm1 with code := code' }, none)
      | k =>
        .error (Error.new (.ValueMismatch (ValueKind.Int 0).get_value_name
          k.get_value_name) argPos1)
    | .ok (_, argPos1, none) =>
      .error (Error.new (.ValueMismatch (ValueKind.Int 0).get_value_name
        ValueKind.Void.get_value_name) argPos1)
termination_by structural fuel _ _ => fuel

/-- `VM::rjmp`: as `jmp` with a relative jump. -/
def rjmpImpl : Nat → VM → Nat → Except Error (VM × Option Value)
  | 0, _, _ => .error (Error.message_only .OutOfFuel)
  | fuel + 1, vm, pos =>
    match getArg fuel vm 1 pos with
    | .error e => .error e
    | .ok (vm1, argPos1, some v) =>
      match v.kind with
      | .Int jump_location =>
        match Code.relative_jump vm1.code jump_location pos with
        | (some e, _) => .error e
        | (none, code') => .ok ({ vm1 with code := code' }, none)
      | k =>
        .error (Error.new (.ValueMismatch (ValueKind.Int 0).get_value_name
          k.get_value_name) argPos1)
    | .ok (_, argPos1, none) =>
      .error (Error.new (.ValueMismatch (ValueKind.Int 0).get_value_name
        ValueKind.Void.get_value_name) argPos1)
termination_by structural fuel _ _ => fuel

/-- `VM::print`/`printn`: evaluate one argument; the rendering to stdout
is outside the model (no claim observes it). -/
def printImpl : Nat → VM → Nat → Except Error (VM × Option Value)
  | 0, _, _ => .error (Error.message_only .OutOfFuel)
  | fuel + 1, vm, pos =>
    match getArg fuel vm 1 pos with
    | .error e => .error e
    | .ok (vm', _, some _) => .ok (vm', none)
    | .ok (_, argPos, none) =>
      .error (Error.new (.ValueMismatch ValueKind.Any.get_value_name
        ValueKind.Void.get_value_name) argPos)
termination_by structural fuel _ _ => fuel

/-- `VM::set`: read the name unevaluated, evaluate the value argument,
and `define` the binding through `call_stack.peek_mut().unwrap()` — the
*bottom* frame of the call stack. -/
def setImpl : Nat → VM → Nat → Except Error (VM × Option Value)
  | 0, _, _ => .error (Error.message_only .OutOfFuel)
  | fuel + 1, vm, pos =>
    match getArgUnevaluated vm 2 pos with
    | .error e => .error e
    | .ok (vm1, argPos1, arg1) =>
      match getArg fuel vm1 1 pos with
      | .error e => .error e
      | .ok (vm2, argPos2, arg2) =>
        match arg1.kind with
        | .Identifier name =>
          match arg2 with
          | some v =>
            match stackPeek vm2.call_stack with
            | none => .error (Error.message_only .Panic)
            | some frame =>
              .ok ({ vm2 with
                stores := storesDefine vm2.stores frame.current_store name v }, none)
          | none =>
            .error (Error.new (.ValueMismatch ValueKind.Any.get_value_name
              ValueKind.Void.get_value_name) argPos2)
        | k =>
          .error (Error.new (.ValueMismatch
            (ValueKind.Identifier "").get_value_name k.get_value_name) argPos1)
termination_by structural fuel _ _ => fuel

/-- `VM::call`: read the label name unevaluated, record the pointer after
it as the caller position, move the pointer to the label's body, and push
a frame whose parent store is the store of `call_stack.peek()` (the
bottom frame) exactly when the called label is strictly nested inside
that frame's label. -/
def callImpl : Nat → VM → Nat → Except Error (VM × Option Value)
  | 0, _, _ => .error (Error.message_only .OutOfFuel)
  | _ + 1, vm, pos =>
    match getArgUnevaluated vm 1 pos with
    | .error e => .error e
    | .ok (vm1, argPos1, arg1) =>
      match arg1.kind with
      | .Identifier label_name =>
        let caller_pos := vm1.code.get_current_pos
        match vm1.code.set_label_location label_name argPos1 with
        | .error e => .error e
        | .ok ((startIdx, endIdx), code') =>
          let vm2 : VM := { vm1 with code := code' }
          let store : Option Nat :=
            match stackPeek vm2.call_stack with
            | some frame =>
              match vm2.code.get_label_start_end frame.name with
              | some (cur_start, cur_end) =>
                if cur_start < startIdx ∧ endIdx < cur_end then
                  some frame.current_store
                else none
              | none => none
            | none => none
          match allocFrame vm2.stores caller_pos label_name store with
          | (new_frame, stores') =>
            .ok ({ vm2 with
              call_stack := stackPush vm2.call_stack new_frame
              stores := stores' }, none)
      | k =>
        .error (Error.new (.ValueMismatch
          (ValueKind.Label "" []).get_value_name k.get_value_name) argPos1)
end

/-- One iteration of `VM::run`'s loop: `next().unwrap()` the value under
the pointer (the `unwrap` cannot fail right after `is_finished` was
false) and dispatch on it; evaluation fuel `values.length + 1` always
suffices for a single dispatch, because each nested `get_arg` reads the
stream strictly forward. -/
def vmStep (vm : VM) : Except Error (VM × Option Value) :=
  match vm.code.next with
  | (none, _) => .error (Error.message_only .Panic)
  | (some v, code') =>
    evaluateValue (vm.code.values.length + 1) { vm with code := code' } v

/-- Runs at most `n` iterations of `VM::run`'s loop and returns the
resulting state (used to observe intermediate states of a run). -/
def vmSteps : Nat → VM → Except Error VM
  | 0, vm => .ok vm
  | n + 1, vm =>
    if vm.finished then .ok vm
    else
      match vmStep vm with
      | .error e => .error e
      | .ok (vm', _) => vmSteps n vm'

/-- `VM::run` (`vm.rs`), with `fuel` bounding the number of loop
iterations: returns `none` when finished, or the value of the last
dispatch when it finished the program and produced one. -/
def vmRun : Nat → VM → Except Error (Option Value)
  | 0, _ => .error (Error.message_only .OutOfFuel)
  | n + 1, vm =>
    if vm.finished then .ok none
    else
      match vmStep vm with
      | .error e => .error e
      | .ok (vm', result) =>
        if vm'.finished ∧ result.isSome then .ok result
        else vmRun n vm'

/-- `VM::new`: load the code and start with a single `main` frame with
caller index 0 and a fresh parentless store. -/
def VM.new (tokens : List Token) : Except Error VM :=
  match Code.new tokens with
  | .error e => .error e
  | .ok code =>
    .ok { code := code
          operand_stack := []
          call_stack := [⟨0, "main", 0⟩]
          stores := [⟨none, []⟩] }


/-! ## The lexer (`lexer.rs`)

The lexer is modelled as a function over the character list of the input,
threading the 1-based `current_position` counter exactly as the source
does (incremented once per consumed character).  The main loop is
fuel-indexed for termination; every iteration consumes at least one
character, so the fuel `length + 1` supplied by `lexChars` below always
suffices. -/

/-- A single-quote character (built numerically). -/
def quoteSingle : Char := Char.ofNat 39

/-- A double-quote character (built numerically). -/
def quoteDouble : Char := Char.ofNat 34

/-- `char::is_ascii_whitespace`: space, tab, newline, form feed, or
carriage return. -/
def isAsciiWhitespace (c : Char) : Bool :=
  c = ' ' || c = '\t' || c = '\n' || c = Char.ofNat 12 || c = '\r'

/-- `char::is_ascii_digit`. -/
def isAsciiDigit (c : Char) : Bool := 48 ≤ c.toNat && c.toNat ≤ 57

/-- `char::is_ascii_alphabetic`. -/
def isAsciiAlphabetic (c : Char) : Bool :=
  (65 ≤ c.toNat && c.toNat ≤ 90) || (97 ≤ c.toNat && c.toNat ≤ 122)

/-- `char::to_ascii_lowercase`. -/
def asciiLowerChar (c : Char) : Char :=
  if 65 ≤ c.toNat && c.toNat ≤ 90 then Char.ofNat (c.toNat + 32) else c

/-- `str::eq_ignore_ascii_case`. -/
def eqIgnoreAsciiCase (a b : List Char) : Bool :=
  decide (a.map asciiLowerChar = b.map asciiLowerChar)

/-- The numeric value of a digit string. -/
def digitsToNat (ds : List Char) : Nat :=
  ds.foldl (fun acc c => acc * 10 + (c.toNat - 48)) 0

/-- `str::parse::<i64>`: an optional sign followed by at least one digit,
with the value required to fit in `i64`.  (The strings reaching this
parser consist of an optional leading `-` followed by digit characters
only, so the digit test below is the live part of the grammar.) -/
def parseI64 (s : List Char) : Option ℤ :=
  match s with
  | [] => none
  | c :: rest =>
    let signed := c = '-'
    let ds := if c = '-' || c = '+' then rest else c :: rest
    if ds.isEmpty || !ds.all isAsciiDigit then none
    else
      let n := digitsToNat ds
      if signed then
        if n ≤ 2 ^ 63 then some (-(n : ℤ)) else none
      else
        if n ≤ 2 ^ 63 - 1 then some (n : ℤ) else none

/-- `str::parse::<f64>`, restricted to the strings the lexer can build
(an optional leading `-`, digits, and at most one `.`): the significand
needs at least one digit, on either side of the dot.  The value is the
exact decimal rational (a real `f64` parse rounds it to the nearest
representable double; see the `Float64` module comment). -/
def parseF64 (s : List Char) : Option Float64 :=
  match s with
  | [] => none
  | c :: rest =>
    let signed := c = '-'
    let body := if c = '-' || c = '+' then rest else c :: rest
    let intPart := body.takeWhile isAsciiDigit
    let afterInt := body.drop intPart.length
    let build (frac : List Char) : Option Float64 :=
      if intPart.isEmpty && frac.isEmpty then none
      else
        let q : ℚ :=
          (digitsToNat intPart * 10 ^ frac.length + digitsToNat frac : ℚ) /
            (10 ^ frac.length : ℚ)
        some (.finite (if signed then -q else q))
    match afterInt with
    | [] => if intPart.isEmpty then none else build []
    | dot :: frac =>
      if dot = '.' && frac.all isAsciiDigit then build frac else none

/-- The digit/dot collection loop of `Lexer::make_number`: consumes
digits, and at most one `.`, returning the collected characters, the
updated position and the remaining input. -/
def numberBody (pos : Nat) (chars : List Char) (hasDecimal : Bool) :
    List Char × Nat × List Char :=
  match chars with
  | [] => ([], pos, [])
  | c :: rest =>
    if isAsciiDigit c then
      match numberBody (pos + 1) rest hasDecimal with
      | (acc, p, r) => (c :: acc, p, r)
    else if c = '.' && !hasDecimal then
      match numberBody (pos + 1) rest true with
      | (acc, p, r) => (c :: acc, p, r)
    else ([], pos, c :: rest)

/-- `Lexer::make_number`: collect the number body after the triggering
character `digit` (a digit or `-`), then parse it as an `i64` when no
decimal point was collected and as an `f64` otherwise; a parse failure is
`InvalidNumberFormat` at the position after the collected body, and a
successful token carries the position of the triggering character. -/
def makeNumber (pos : Nat) (digit : Char) (chars : List Char) :
    Except Error (Token × Nat × List Char) :=
  match numberBody pos chars false with
  | (body, pos', rest) =>
    let number := digit :: body
    if body.contains '.' then
      match parseF64 number with
      | some f => .ok (Token.new (.FloatLiteral f) pos, pos', rest)
      | none => .error (Error.new .InvalidNumberFormat pos')
    else
      match parseI64 number with
      | some v => .ok (Token.new (.IntegerLiteral v) pos, pos', rest)
      | none => .error (Error.new .InvalidNumberFormat pos')

/-- The collection loop of `Lexer::make_string`: consume until the
opening quote recurs (`some` with the content, the position and the rest
after the closing quote), or `none` at end of input. -/
def stringBody (pos : Nat) (opener : Char) (chars : List Char) :
    Option (List Char × Nat × List Char) :=
  match chars with
  | [] => none
  | c :: rest =>
    if c = opener then some ([], pos + 1, rest)
    else
      match stringBody (pos + 1) opener rest with
      | some (s, p, r) => some (c :: s, p, r)
      | none => none

/-- `Lexer::make_string`: the contents are taken verbatim (no escapes);
an unterminated string is `UnterminatedString` at the opening quote. -/
def makeString (pos : Nat) (opener : Char) (chars : List Char) :
    Except Error (Token × Nat × List Char) :=
  match stringBody pos opener chars with
  | some (content, pos', rest) =>
    .ok (Token.new (.StringLiteral (String.mk content)) pos, pos', rest)
  | none => .error (Error.new .UnterminatedString pos)

/-- The collection loop of `Lexer::make_label`: identifier characters up
to (not consuming) a whitespace or digit. -/
def labelBody (pos : Nat) (chars : List Char) : List Char × Nat × List Char :=
  match chars with
  | [] => ([], pos, [])
  | c :: rest =>
    if isAsciiWhitespace c || isAsciiDigit c then ([], pos, c :: rest)
    else
      match labelBody (pos + 1) rest with
      | (s, p, r) => (c :: s, p, r)

/-- `Lexer::make_label`: an empty name is `InvalidLabelName` at the `@`.
This revision's lexer builds `TokenKind::Label(name)`; in the
feature-complete token enum the parameter list is empty. -/
def makeLabel (pos : Nat) (chars : List Char) :
    Except Error (Token × Nat × List Char) :=
  match labelBody pos chars with
  | (lbl, pos', rest) =>
    if lbl.length = 0 then .error (Error.new .InvalidLabelName pos)
    else .ok (Token.new (.Label (String.mk lbl) []) pos, pos', rest)

/-- The collection loop of `Lexer::make_word`: non-whitespace characters;
a terminating whitespace character is consumed (with its position
increment) before the loop breaks. -/
def wordBody (pos : Nat) (chars : List Char) : List Char × Nat × List Char :=
  match chars with
  | [] => ([], pos, [])
  | c :: rest =>
    if isAsciiWhitespace c then ([], pos + 1, rest)
    else
      match wordBody (pos + 1) rest with
      | (s, p, r) => (c :: s, p, r)

/-- `TokenKind::is_instruction` (`tokens/token_kind.rs`): the mnemonic
table, after ASCII lowercasing. -/
def isInstruction (word : List Char) : Option TokenKind :=
  let w := String.mk (word.map asciiLowerChar)
  if w = "push" then some .Push
  else if w = "pop" then some .Pop
  else if w = "peek" then some .Peek
  else if w = "add" then some .Add
  else if w = "sub" then some .Sub
  else if w = "mul" then some .Mul
  else if w = "div" then some .Div
  else if w = "mod" then some .Mod
  else if w = "lt" then some .LessThan
  else if w = "lte" then some .LessThanEqual
  else if w = "gt" then some .GreaterThan
  else if w = "gte" then some .GreaterThanEqual
  else if w = "eq" then some .Equal
  else if w = "neq" then some .NotEqual
  else if w = "jmp" then some .Jump
  else if w = "rjmp" then some .RelativeJump
  else if w = "jmpt" then some .JumpIfTrue
  else if w = "jmpf" then some .JumpIfFalse
  else if w = "rjmpt" then some .RelativeJumpIfTrue
  else if w = "rjmpf" then some .RelativeJumpIfFalse
  else if w = "print" then some .Print
  else if w = "printn" then some .PrintNewLine
  else if w = "set" then some .Set
  else if w = "call" then some .Call
  else none

/-- `Lexer::make_word`: collect the word and classify it
(case-insensitively): `void`, `any`, `true`, `false`, `end`, then the
instruction table, else an identifier preserving the original case. -/
def makeWord (pos : Nat) (letter : Char) (chars : List Char) :
    Token × Nat × List Char :=
  match wordBody pos chars with
  | (body, pos', rest) =>
    let word := letter :: body
    let kind : TokenKind :=
      if eqIgnoreAsciiCase word "void".data then .Void
      else if eqIgnoreAsciiCase word "any".data then .Any
      else if eqIgnoreAsciiCase word "true".data then .BooleanLiteral true
      else if eqIgnoreAsciiCase word "false".data then .BooleanLiteral false
      else if eqIgnoreAsciiCase word "end".data then .End
      else
        match isInstruction word with
        | some instruction => instruction
        | none => .Identifier (String.mk word)
    (Token.new kind pos, pos', rest)

/-- `Lexer::handle_single_line_comments`, after the initial `advance`
consuming the peeked `-`: consume up to and including the next newline
(or to end of input). -/
def singleLineComment (pos : Nat) (chars : List Char) : Nat × List Char :=
  match chars with
  | [] => (pos, [])
  | c :: rest =>
    if c = '\n' then (pos + 1, rest) else singleLineComment (pos + 1) rest

/-- `Lexer::handle_multi_line_comments`, after the initial `advance`
consuming the peeked `!`: consume up to and including the terminating
`!-` (or to end of input; comments do not nest). -/
def multiLineComment (pos : Nat) (chars : List Char) : Nat × List Char :=
  match chars with
  | [] => (pos, [])
  | c :: rest =>
    if c = '!' then
      match rest with
      | d :: rest' =>
        if d = '-' then (pos + 2, rest') else multiLineComment (pos + 1) rest
      | [] => multiLineComment (pos + 1) rest
  else multiLineComment (pos + 1) rest

/-- The main loop of `Lexer::lex`, fuel-indexed: consume a character
(incrementing the position), skip whitespace and comments, and otherwise
dispatch on it in the source order — number on a digit or `-`, string on
a quote, label on `@`, word on an ASCII letter, `UnknownCharacter`
otherwise. -/
def lexFrom : Nat → Nat → List Char → Except Error (List Token)
  | 0, _, _ => .error (Error.message_only .OutOfFuel)
  | _ + 1, _, [] => .ok []
  | fuel + 1, pos, ch :: rest =>
    let pos1 := pos + 1
    if isAsciiWhitespace ch then lexFrom fuel pos1 rest
    else if ch = '-' && rest.head? = some '-' then
      match singleLineComment (pos1 + 1) rest.tail with
      | (p, r) => lexFrom fuel p r
    else if ch = '-' && rest.head? = some '!' then
      match multiLineComment (pos1 + 1) rest.tail with
      | (p, r) => lexFrom fuel p r
    else if isAsciiDigit ch || ch = '-' then
      match makeNumber pos1 ch rest with
      | .error e => .error e
      | .ok (tok, p, r) =>
        match lexFrom fuel p r with
        | .error e => .error e
        | .ok toks => .ok (tok :: toks)
    else if ch = quoteSingle || ch = quoteDouble then
      match makeString pos1 ch rest with
      | .error e => .error e
      | .ok (tok, p, r) =>
        match lexFrom fuel p r with
        | .error e => .error e
        | .ok toks => .ok (tok :: toks)
    else if ch = '@' then
      match makeLabel pos1 rest with
      | .error e => .error e
      | .ok (tok, p, r) =>
        match lexFrom fuel p r with
        | .error e => .error e
        | .ok toks => .ok (tok :: toks)
    else if isAsciiAlphabetic ch then
      match makeWord pos1 ch rest with
      | (tok, p, r) =>
        match lexFrom fuel p r with
        | .error e => .error e
        | .ok toks => .ok (tok :: toks)
    else .error (Error.new .UnknownCharacter pos1)

/-- `Lexer::lex` over a character list, with `current_position` starting
at 0.  Every loop iteration consumes at least one input character, so the
fuel `length + 1` is never exhausted. -/
def lexChars (contents : List Char) : Except Error (List Token) :=
  lexFrom (contents.length + 1) 0 contents

/-- `Lexer::new().lex(contents)`. -/
def lex (contents : String) : Except Error (List Token) := lexChars contents.data


/-! ## Concrete inputs used by the theorems below -/

/-- The initial `main` frame (caller index 0, store 0). -/
def mainFrame : Frame := ⟨0, "main", 0⟩

/-- The initial store heap: one parentless empty store for `main`. -/
def initialStores : List Store := [⟨none, []⟩]

/-- A VM state whose operand stack holds two values: `Int 1` was pushed
first (the bottom, list index 0) and `Int 2` last (the top). -/
def peekDemoState : VM :=
  { code := ⟨0, [], []⟩
    operand_stack := [Value.new 1 (.Int 1), Value.new 2 (.Int 2)]
    call_stack := [mainFrame]
    stores := initialStores }

/-- The loaded values of the program `@main push 0 jmpt 0 end` (token
positions from the source text). -/
def jmptValues : List Value :=
  [Value.new 1 (.Label "main" []), Value.new 7 .Push, Value.new 12 (.Int 0),
   Value.new 14 .JumpIfTrue, Value.new 19 (.Int 0), Value.new 21 .End]

/-- The state of that program just after `push 0` ran and the `jmpt` value
was fetched: the pointer (4) rests on `jmpt`'s integer argument, and the
operand stack holds the falsy `Int 0`. -/
def jmptDemoState : VM :=
  { code := ⟨4, jmptValues, [("main", ⟨0, 5, []⟩)]⟩
    operand_stack := [Value.new 12 (.Int 0)]
    call_stack := [mainFrame]
    stores := initialStores }

/-- The same mid-execution shape for `@main push 1 jmpf 0 end`: the
pointer (4) rests on `jmpf`'s integer argument and the stack top is the
truthy `Int 1`. -/
def jmpfDemoState : VM :=
  { code := ⟨4,
      [Value.new 1 (.Label "main" []), Value.new 7 .Push, Value.new 12 (.Int 1),
       Value.new 14 .JumpIfFalse, Value.new 19 (.Int 0), Value.new 21 .End],
      [("main", ⟨0, 5, []⟩)]⟩
    operand_stack := [Value.new 12 (.Int 1)]
    call_stack := [mainFrame]
    stores := initialStores }

/-- The token sequence of the source text
`@foo set x 1 end @main call foo push x pop end`
(the positions are the 1-based character offsets in that text; this is
the output of `lex` on it). -/
def progC2 : List Token :=
  [⟨.Label "foo" [], 1⟩, ⟨.Set, 6⟩, ⟨.Identifier "x", 10⟩,
   ⟨.IntegerLiteral 1, 12⟩, ⟨.End, 14⟩, ⟨.Label "main" [], 18⟩,
   ⟨.Call, 24⟩, ⟨.Identifier "foo", 29⟩, ⟨.Push, 33⟩,
   ⟨.Identifier "x", 38⟩, ⟨.Pop, 40⟩, ⟨.End, 44⟩]

/-- The loaded values of `progC2`. -/
def progC2Values : List Value := progC2.map tokenToValue

/-- The label table of `progC2`: `foo` spans indices 0–4 and `main`
spans 5–11. -/
def progC2Labels : LabelMap := [("foo", ⟨0, 4, []⟩), ("main", ⟨5, 11, []⟩)]

/-- The start state of `progC2` (pointer 6, right after `@main`). -/
def c2Vm0 : VM := ⟨⟨6, progC2Values, progC2Labels⟩, [], [mainFrame], initialStores⟩

/-- The state of `progC2` after three loop iterations — `call foo`,
`set x 1`, and `foo`'s `end` — so control is back in `main` (pointer 8,
on `push`): the binding `x = 1` made inside `foo` sits in the store of
the `main` frame (heap index 0), and `foo`'s own store (heap index 1) is
empty. -/
def c2Vm3 : VM :=
  ⟨⟨8, progC2Values, progC2Labels⟩, [], [mainFrame],
   [⟨none, [("x", Value.new 12 (.Int 1))]⟩, ⟨none, []⟩]⟩

/-- The state of `progC2` after all six loop iterations (`call foo`,
`set x 1`, `foo`'s `end`, `push x`, `pop`, `main`'s `end`): the call
stack is empty, so the run is finished — without any error, and with the
binding `x = 1` still sitting in `main`'s store. -/
def c2VmFinal : VM :=
  ⟨⟨0, progC2Values, progC2Labels⟩, [], [],
   [⟨none, [("x", Value.new 12 (.Int 1))]⟩, ⟨none, []⟩]⟩

/-- A code object with one value and the pointer past it (current = 1,
len = 1). -/
def c6Code : Code := ⟨1, [Value.new 1 .Void], []⟩

/-- A float value that is subnormal: finite, non-zero, non-NaN, with
magnitude `2^-1023`, strictly below the smallest normal `2^-1022`. -/
def subnormalValue : Value := Value.new 1 (.Float (.finite (1 / 2 ^ 1023)))

/-- The constructor discriminant of a `ValueKind`; two kinds with
different discriminants form a cross-type pair. -/
def kindVariant : ValueKind → Nat
  | .Void => 0
  | .Any => 1
  | .Int _ => 2
  | .Float _ => 3
  | .Boolean _ => 4
  | .String _ => 5
  | .Identifier _ => 6
  | .Label _ _ => 7
  | .End => 8
  | .Push => 9
  | .Pop => 10
  | .Peek => 11
  | .Add => 12
  | .Sub => 13
  | .Mul => 14
  | .Div => 15
  | .Mod => 16
  | .LessThan => 17
  | .LessThanEqual => 18
  | .GreaterThan => 19
  | .GreaterThanEqual => 20
  | .Equal => 21
  | .NotEqual => 22
  | .Jump => 23
  | .RelativeJump => 24
  | .JumpIfTrue => 25
  | .JumpIfFalse => 26
  | .RelativeJumpIfTrue => 27
  | .RelativeJumpIfFalse => 28
  | .Print => 29
  | .PrintNewLine => 30
  | .Set => 31
  | .Call => 32




/-- Whether a kind is one of the four kinds with non-trivial truthiness
(int, float, boolean, string). -/
def truthyRelevantKind : ValueKind → Bool
  | .Int _ => true
  | .Float _ => true
  | .Boolean _ => true
  | .String _ => true
  | _ => false


/-- The token sequence of `@main end`. -/
def c8Tokens : List Token := [⟨.Label "main" [], 1⟩, ⟨.End, 7⟩]

/-- The code object `Code::new` produces for `c8Tokens`. -/
def c8Code : Code :=
  ⟨1, [⟨1, .Label "main" []⟩, ⟨7, .End⟩], [("main", ⟨0, 1, []⟩)]⟩

/-! ## Theorems for the verified claims -/

/-- **C1** (code bug).  The spec: executing `Peek` returns the top (most
recently pushed) value of a non-empty operand stack, leaving the stack
unchanged.  The code: `Stack::peek` is `Vec::first`, so on the state
`peekDemoState` — where `Int 1` was pushed first and `Int 2` last — the
`Peek` dispatch returns the *bottom* value `Int 1`, not the top value
`Int 2` (the state, including the stack, is indeed unchanged, and an
empty stack does yield `Void`). -/
theorem c1_peek_returns_bottom :
    evaluateValue 1 peekDemoState (Value.new 9 .Peek) =
        .ok (peekDemoState, some (Value.new 1 (.Int 1))) ∧
      peekDemoState.operand_stack.getLast? = some (Value.new 2 (.Int 2)) ∧
      Value.new 1 (.Int 1) ≠ Value.new 2 (.Int 2) :=
  ⟨by rfl, by rfl, by decide⟩

set_option maxHeartbeats 2000000 in
/-- **C2** (code bug).  The spec: `set` binds in the store of the current
(top-most) frame, so a variable defined inside a label invoked via `call`
is invisible to the caller after `end`.  The code: `set` binds through
`call_stack.peek_mut()`, which is `Vec::first_mut` — the *bottom* frame.
On the program `@foo set x 1 end @main call foo push x pop end`: loading
gives the state `c2Vm0`; after `call foo`, `set x 1` and `foo`'s `end`
(three loop iterations) the state is `c2Vm3`, whose *main* store holds
`x = 1`; evaluating the identifier `x` there (the caller's `push x`)
succeeds with `Int 1` instead of failing with `UndefinedVariable`, and
three further iterations (`push x`, `pop`, `main`'s `end`) finish the
program without any error. -/
theorem c2_callee_binding_visible_to_caller :
    VM.new progC2 = .ok c2Vm0 ∧
      vmSteps 3 c2Vm0 = .ok c2Vm3 ∧
      evaluateValue 1 c2Vm3 (Value.new 38 (.Identifier "x")) =
        .ok (c2Vm3, some (Value.new 12 (.Int 1))) ∧
      vmSteps 3 c2Vm3 = .ok c2VmFinal ∧
      c2VmFinal.finished = true :=
  ⟨by decide, by decide, by decide, by decide, by decide⟩

/-- **C3** (code bug).  The spec: on a non-empty operand stack, `jmpt`
(resp. `jmpf`) with an untaken branch still evaluates and discards its
integer argument, so the pointer ends up past the argument.  The code:
the untaken branch of `VM::jmpt`/`jmpf` is `_ => Ok(None)`, which returns
without consuming the argument.  On `jmptDemoState` (stack top `Int 0`,
falsy; pointer 4 resting on the argument) the `jmpt` dispatch returns
with the state — in particular the pointer — completely unchanged, so the
next loop iteration executes the argument value itself; symmetrically for
`jmpf` on a truthy top. -/
theorem c3_conditional_jump_skips_argument :
    evaluateValue 2 jmptDemoState (Value.new 14 .JumpIfTrue) =
        .ok (jmptDemoState, none) ∧
      jmptDemoState.code.value_pointer = 4 ∧
      jmptDemoState.code.values[4]? = some (Value.new 19 (.Int 0)) ∧
      evaluateValue 2 jmpfDemoState (Value.new 14 .JumpIfFalse) =
        .ok (jmpfDemoState, none) :=
  ⟨by rfl, by rfl, by rfl, by rfl⟩

/-- **C4** (code bug).  The spec: `Value::div` errors with
`DivisionByZero` iff the divisor is the integer `0` or a float of
magnitude below epsilon.  The code's float checks are
`x - 0.0 < EPSILON` — without `abs`, and in the `(Float, Int)` arm `x` is
the *dividend* — so dividing the float `1.0` by the integer `0` does not
error (it produces `+inf`), while dividing the integer `1` by the float
`-1.0` (magnitude 1) errors with `DivisionByZero`. -/
theorem c4_div_zero_checks_wrong_operand :
    Value.div (Value.new 1 (.Float (.finite 1))) (Value.new 2 (.Int 0)) 3 =
        .ok (Value.new 3 (.Float (.inf true))) ∧
      Value.div (Value.new 1 (.Int 1)) (Value.new 2 (.Float (.finite (-1)))) 3 =
        .error (Error.new .DivisionByZero 3) := by
  constructor
  · simp [Value.div, Value.new, Float64.lt, Float64.sub, Float64.div, Float64.ofInt, f64Epsilon]
    norm_num
  · simp [Value.div, Value.new, Float64.lt, Float64.sub, Float64.div, Float64.ofInt, f64Epsilon]
    norm_num

/-- **C5** (counterexample).  The claim says a float is truthy iff it is
finite, non-zero and non-NaN; `subnormalValue` carries the finite,
non-zero float `2^-1023`, yet `is_truthy` — which uses `f64::is_normal`,
excluding subnormals — returns `false` on it. -/
theorem c5_subnormal_counterexample :
    (1 : ℚ) / 2 ^ 1023 ≠ 0 ∧ Value.is_truthy subnormalValue = false := by
  constructor
  · norm_num
  · simp [Value.is_truthy, subnormalValue, Value.new, Float64.isNormal]
    rw [abs_of_pos (by positivity)]
    norm_num

/-- **C6** (counterexample).  On `c6Code` (current = 1, len = 1) the
delta `1` lies outside the claimed admissible range
`[-current, len - current] = [-1, 0]`, yet `relative_jump` performs the
jump (no error, pointer 2) instead of returning `OutOfBounds`. -/
theorem c6_relative_jump_counterexample :
    ((c6Code.values.length : ℤ) - (c6Code.value_pointer : ℤ) < 1) ∧
      c6Code.relative_jump 1 5 =
        (none, { c6Code with value_pointer := 2 }) :=
  ⟨by decide, by rfl⟩

/-- **C9** (counterexample).  The claim says a `-` that starts no comment
and is not followed by a digit makes lexing fail with
`UnknownCharacter`; but on the input `"-"` the lexer reaches
`make_number`, whose parse failure is `InvalidNumberFormat` (at the `-`'s
position), a different error kind. -/
theorem c9_dash_counterexample :
    lex "-" = .error (Error.new .InvalidNumberFormat 1) ∧
      ErrorKind.InvalidNumberFormat ≠ ErrorKind.UnknownCharacter :=
  ⟨by rfl, by decide⟩



/-- **C5** (amended).  `is_truthy`, characterized: an int is truthy iff
non-zero; a float is truthy iff it is a *normal* double — finite with
magnitude at least `2^-1022` (so zero, subnormals, infinities and NaN are
all falsy); a boolean is itself; a string is truthy iff non-empty; every
other kind is falsy. -/
theorem c5_truthiness_amended :
    (∀ (p : Nat) (i : ℤ),
        Value.is_truthy (Value.new p (.Int i)) = true ↔ i ≠ 0) ∧
      (∀ (p : Nat) (q : ℚ),
        Value.is_truthy (Value.new p (.Float (.finite q))) = true ↔
          (1 : ℚ) / 2 ^ 1022 ≤ |q|) ∧
      (∀ p : Nat, Value.is_truthy (Value.new p (.Float .nan)) = false) ∧
      (∀ (p : Nat) (s : Bool),
        Value.is_truthy (Value.new p (.Float (.inf s))) = false) ∧
      (∀ (p : Nat) (b : Bool), Value.is_truthy (Value.new p (.Boolean b)) = b) ∧
      (∀ (p : Nat) (s : Str),
        Value.is_truthy (Value.new p (.String s)) = true ↔ s ≠ "") ∧
      (∀ v : Value, truthyRelevantKind v.kind = false →
        Value.is_truthy v = false) := by
  refine ⟨?_, ?_, ?_, ?_, ?_, ?_, ?_⟩
  · intro p i
    simp [Value.is_truthy, Value.new]
  · intro p q
    simp [Value.is_truthy, Value.new, Float64.isNormal]
  · intro p
    rfl
  · intro p s
    rfl
  · intro p b
    rfl
  · intro p s
    simp [Value.is_truthy, Value.new, Bool.eq_false_iff, String.isEmpty_iff]
  · intro v h
    rcases v with ⟨p, k⟩
    cases k <;> simp_all [truthyRelevantKind, Value.is_truthy]

/-- Witness for the amended C5: the one conjunct with a hypothesis,
applied to the instruction value `Push` (not an int/float/bool/string),
which is falsy. -/
theorem c5_truthiness_amended_witness :
    Value.is_truthy (Value.new 1 .Push) = false :=
  c5_truthiness_amended.2.2.2.2.2.2 (Value.new 1 .Push) rfl

/-- **C6** (amended).  `Code::relative_jump` accepts every delta in the
inclusive range `[-current, len]` — the upper bound is `len`, *not* the
claimed `len - current` — setting the pointer to `current + delta` (as
the signed sum, cast back to an index); every delta outside that range
yields the `OutOfBounds` error with the pointer unchanged. -/
theorem c6_relative_jump_amended (c : Code) (delta : ℤ) (pos : Nat) :
    if -(c.value_pointer : ℤ) ≤ delta ∧ delta ≤ (c.values.length : ℤ) then
      c.relative_jump delta pos =
        (none, { c with value_pointer := ((c.value_pointer : ℤ) + delta).toNat })
    else
      c.relative_jump delta pos =
        (some (Error.new
          (.OutOfBounds ((-(c.value_pointer : ℤ)) % 2 ^ 64).toNat
            c.values.length) pos), c) := by
  by_cases hc : -(c.value_pointer : ℤ) ≤ delta ∧ delta ≤ (c.values.length : ℤ)
  · rw [if_pos hc]
    rcases lt_or_ge delta 0 with hneg | hnonneg
    · have hp : c.value_pointer - (-delta).toNat = ((c.value_pointer : ℤ) + delta).toNat := by
        omega
      simp [Code.relative_jump, hc, hneg, hp]
    · have hp : c.value_pointer + delta.toNat = ((c.value_pointer : ℤ) + delta).toNat := by
        omega
      simp [Code.relative_jump, hc, not_lt.mpr hnonneg, hp]
  · rw [if_neg hc]
    simp [Code.relative_jump, hc]

/-- **C7** (confirmed).  `Value::equal` and `Value::not_equal` are total
— every pair of values, at every position, yields a `Boolean` value and
never an error (their Rust signatures return a plain `Value`): same-type
int, boolean and string pairs compare by (in)equality, float pairs
compare by `|a - b| < EPSILON`, and every cross-type pair (distinct kind
constructors) yields `false` for `equal` and `true` for `not_equal`. -/
theorem c7_eq_neq_total :
    (∀ (v1 v2 : Value) (pos : Nat),
        ∃ b : Bool, Value.equal v1 v2 pos = Value.new pos (.Boolean b)) ∧
      (∀ (v1 v2 : Value) (pos : Nat),
        ∃ b : Bool, Value.not_equal v1 v2 pos = Value.new pos (.Boolean b)) ∧
      (∀ (p q r : Nat) (a b : ℤ),
        Value.equal (Value.new p (.Int a)) (Value.new q (.Int b)) r =
            Value.new r (.Boolean (decide (a = b))) ∧
          Value.not_equal (Value.new p (.Int a)) (Value.new q (.Int b)) r =
            Value.new r (.Boolean (decide (a ≠ b)))) ∧
      (∀ (p q r : Nat) (a b : Bool),
        Value.equal (Value.new p (.Boolean a)) (Value.new q (.Boolean b)) r =
            Value.new r (.Boolean (decide (a = b))) ∧
          Value.not_equal (Value.new p (.Boolean a)) (Value.new q (.Boolean b)) r =
            Value.new r (.Boolean (decide (a ≠ b)))) ∧
      (∀ (p q r : Nat) (a b : Str),
        Value.equal (Value.new p (.String a)) (Value.new q (.String b)) r =
            Value.new r (.Boolean (decide (a = b))) ∧
          Value.not_equal (Value.new p (.String a)) (Value.new q (.String b)) r =
            Value.new r (.Boolean (decide (a ≠ b)))) ∧
      (∀ (p q r : Nat) (a b : ℚ),
        Value.equal (Value.new p (.Float (.finite a)))
            (Value.new q (.Float (.finite b))) r =
          Value.new r (.Boolean (decide (|a - b| < f64Epsilon)))) ∧
      (∀ (v1 v2 : Value) (pos : Nat), kindVariant v1.kind ≠ kindVariant v2.kind →
        Value.equal v1 v2 pos = Value.new pos (.Boolean false) ∧
          Value.not_equal v1 v2 pos = Value.new pos (.Boolean true)) := by
  refine ⟨?_, ?_, ?_, ?_, ?_, ?_, ?_⟩
  · intro v1 v2 pos
    rcases v1 with ⟨p1, k1⟩
    rcases v2 with ⟨p2, k2⟩
    cases k1 <;> cases k2 <;> exact ⟨_, rfl⟩
  · intro v1 v2 pos
    rcases v1 with ⟨p1, k1⟩
    rcases v2 with ⟨p2, k2⟩
    cases k1 <;> cases k2 <;> exact ⟨_, rfl⟩
  · intro p q r a b
    constructor
    · rfl
    · simp [Value.not_equal, Value.new]
  · intro p q r a b
    constructor
    · cases a <;> cases b <;> rfl
    · cases a <;> cases b <;> rfl
  · intro p q r a b
    constructor
    · rfl
    · simp [Value.not_equal, Value.new]
  · intro p q r a b
    rfl
  · intro v1 v2 pos h
    rcases v1 with ⟨p1, k1⟩
    rcases v2 with ⟨p2, k2⟩
    cases k1 <;> cases k2 <;>
      first
        | exact ⟨rfl, rfl⟩
        | exact absurd rfl h

/-- Witness for C7: the cross-type conjunct (the one with a hypothesis)
applied at `Int 1` versus `Boolean true`. -/
theorem c7_eq_neq_total_witness :
    Value.equal (Value.new 1 (.Int 1)) (Value.new 2 (.Boolean true)) 3 =
        Value.new 3 (.Boolean false) ∧
      Value.not_equal (Value.new 1 (.Int 1)) (Value.new 2 (.Boolean true)) 3 =
        Value.new 3 (.Boolean true) :=
  c7_eq_neq_total.2.2.2.2.2.2 (Value.new 1 (.Int 1)) (Value.new 2 (.Boolean true)) 3
    (by decide)



/-- **C9** (amended).  From any lexer state (any position, any remaining
input), a `-` that does not begin a `--` or `-!` comment and is not
followed by a digit or a `.` is dispatched to `make_number`, which
collects no digits and fails parsing `"-"`: the result is the
`InvalidNumberFormat` error at the `-`'s position (errors of the loop
body propagate to the result of `lex`, so this also settles every full
input in which the lexer reaches such a `-`). -/
theorem c9_dash_amended (fuel pos : Nat) (rest : List Char)
    (h : ∀ c ∈ rest.head?, ¬(c = '-' ∨ c = '!' ∨ isAsciiDigit c = true ∨ c = '.')) :
    lexFrom (fuel + 1) pos ('-' :: rest) =
      .error (Error.new .InvalidNumberFormat (pos + 1)) := by
  cases rest with
  | nil => rfl
  | cons c rest' =>
    have hc := h c rfl
    push_neg at hc
    obtain ⟨h1, h2, h3, h4⟩ := hc
    simp only [lexFrom]
    rw [if_neg (by simp [isAsciiWhitespace]),
        if_neg (by simp [List.head?]; intro hd; exact absurd hd h1),
        if_neg (by simp [List.head?]; intro hd; exact absurd hd h2),
        if_pos (by simp [isAsciiDigit])]
    have hnb : numberBody (pos + 1) (c :: rest') false = ([], pos + 1, c :: rest') := by
      simp [numberBody, h3, h4]
    simp only [makeNumber, hnb]
    rfl

/-- Witness for the amended C9: the input `-a` (so `rest = ['a']`), at
fuel 1 and position 0. -/
theorem c9_dash_amended_witness :
    lexFrom 1 0 ('-' :: ['a']) = .error (Error.new .InvalidNumberFormat 1) :=
  c9_dash_amended 0 0 ['a'] (by
    intro c hc
    simp only [List.head?, Option.mem_def, Option.some.injEq] at hc
    subst hc
    decide)



/-- Strictness helper: lowering the head bound preserves a strictly
increasing chain. -/
theorem chainLt_mono (p p' : Nat) (l : List Nat) (hle : p ≤ p')
    (h : List.Chain' (· < ·) (p' :: l)) : List.Chain' (· < ·) (p :: l) := by
  cases l with
  | nil => simp
  | cons a l =>
    rw [List.chain'_cons] at h ⊢
    exact ⟨lt_of_le_of_lt hle h.1, h.2⟩

/-- The number collector only advances the position. -/
theorem numberBody_pos_le :
    ∀ (chars : List Char) (pos : Nat) (hd : Bool),
      pos ≤ (numberBody pos chars hd).2.1 := by
  intro chars
  induction chars with
  | nil => intro pos hd; simp [numberBody]
  | cons c rest ih =>
    intro pos hd
    simp only [numberBody]
    split
    · rcases hr : numberBody (pos + 1) rest hd with ⟨acc, p, r⟩
      have := ih (pos + 1) hd
      rw [hr] at this
      simp only [hr]
      dsimp only at this ⊢
      omega
    · split
      · rcases hr : numberBody (pos + 1) rest true with ⟨acc, p, r⟩
        have := ih (pos + 1) true
        rw [hr] at this
        simp only [hr]
        dsimp only at this ⊢
        omega
      · simp

/-- The string collector only advances the position. -/
theorem stringBody_pos_le :
    ∀ (chars : List Char) (pos : Nat) (opener : Char) (s : List Char)
      (p : Nat) (r : List Char),
      stringBody pos opener chars = some (s, p, r) → pos ≤ p := by
  intro chars
  induction chars with
  | nil => intro pos opener s p r h; simp [stringBody] at h
  | cons c rest ih =>
    intro pos opener s p r h
    simp only [stringBody] at h
    split at h
    · simp only [Option.some.injEq] at h
      obtain ⟨h1, h2, h3⟩ := Prod.mk.injEq .. ▸ h
      omega
    · split at h
      · rename_i s' p' r' hr
        simp only [Option.some.injEq] at h
        have := ih (pos + 1) opener s' p' r' hr
        obtain ⟨h1, h2, h3⟩ := Prod.mk.injEq .. ▸ h
        omega
      · exact absurd h (by simp)

/-- The label collector only advances the position. -/
theorem labelBody_pos_le :
    ∀ (chars : List Char) (pos : Nat), pos ≤ (labelBody pos chars).2.1 := by
  intro chars
  induction chars with
  | nil => intro pos; simp [labelBody]
  | cons c rest ih =>
    intro pos
    simp only [labelBody]
    split
    · simp
    · rcases hr : labelBody (pos + 1) rest with ⟨s, p, r⟩
      have := ih (pos + 1)
      rw [hr] at this
      simp only [hr]
      dsimp only at this ⊢
      omega

/-- The word collector only advances the position. -/
theorem wordBody_pos_le :
    ∀ (chars : List Char) (pos : Nat), pos ≤ (wordBody pos chars).2.1 := by
  intro chars
  induction chars with
  | nil => intro pos; simp [wordBody]
  | cons c rest ih =>
    intro pos
    simp only [wordBody]
    split
    · simp
    · rcases hr : wordBody (pos + 1) rest with ⟨s, p, r⟩
      have := ih (pos + 1)
      rw [hr] at this
      simp only [hr]
      dsimp only at this ⊢
      omega

/-- The single-line comment consumer only advances the position. -/
theorem singleLineComment_pos_le :
    ∀ (chars : List Char) (pos : Nat), pos ≤ (singleLineComment pos chars).1 := by
  intro chars
  induction chars with
  | nil => intro pos; simp [singleLineComment]
  | cons c rest ih =>
    intro pos
    simp only [singleLineComment]
    split
    · dsimp only
      omega
    · have := ih (pos + 1)
      omega

/-- The block comment consumer only advances the position. -/
theorem multiLineComment_pos_le :
    ∀ (chars : List Char) (pos : Nat), pos ≤ (multiLineComment pos chars).1 := by
  intro chars
  induction chars with
  | nil => intro pos; simp [multiLineComment]
  | cons c rest ih =>
    intro pos
    simp only [multiLineComment]
    split
    · split
      · split
        · dsimp only
          omega
        · have := ih (pos + 1)
          omega
      · have := ih (pos + 1)
        omega
    · have := ih (pos + 1)
      omega

/-- A successful `make_number` emits its token at the entry position and
only advances the position. -/
theorem makeNumber_ok (pos : Nat) (d : Char) (chars : List Char)
    (tok : Token) (p : Nat) (r : List Char)
    (h : makeNumber pos d chars = .ok (tok, p, r)) : tok.pos = pos ∧ pos ≤ p := by
  have hple := numberBody_pos_le chars pos false
  simp only [makeNumber] at h
  rcases hnb : numberBody pos chars false with ⟨body, p', rest'⟩
  rw [hnb] at h hple
  dsimp only at h hple
  split at h <;> split at h <;>
    first
      | exact Except.noConfusion h
      | (simp only [Except.ok.injEq, Prod.mk.injEq] at h
         obtain ⟨htok, hp, hrr⟩ := h
         subst htok
         subst hp
         exact ⟨rfl, by omega⟩)

/-- A successful `make_string` emits its token at the opening quote and
only advances the position. -/
theorem makeString_ok (pos : Nat) (opener : Char) (chars : List Char)
    (tok : Token) (p : Nat) (r : List Char)
    (h : makeString pos opener chars = .ok (tok, p, r)) :
    tok.pos = pos ∧ pos ≤ p := by
  simp only [makeString] at h
  split at h
  · rename_i content p' rest' hsb
    simp only [Except.ok.injEq, Prod.mk.injEq] at h
    obtain ⟨htok, hp, _⟩ := h
    have := stringBody_pos_le chars pos opener content p' rest' hsb
    subst htok
    exact ⟨rfl, by omega⟩
  · exact absurd h (by simp)

/-- A successful `make_label` emits its token at the `@` and only
advances the position. -/
theorem makeLabel_ok (pos : Nat) (chars : List Char)
    (tok : Token) (p : Nat) (r : List Char)
    (h : makeLabel pos chars = .ok (tok, p, r)) : tok.pos = pos ∧ pos ≤ p := by
  have hple := labelBody_pos_le chars pos
  simp only [makeLabel] at h
  rcases hlb : labelBody pos chars with ⟨lbl, p', rest'⟩
  rw [hlb] at h hple
  dsimp only at h hple
  split at h
  · exact absurd h (by simp)
  · simp only [Except.ok.injEq, Prod.mk.injEq] at h
    obtain ⟨htok, hp, hrr⟩ := h
    subst htok
    subst hp
    exact ⟨rfl, by omega⟩

/-- `make_word` emits its token at the first letter and only advances the
position. -/
theorem makeWord_ok (pos : Nat) (letter : Char) (chars : List Char)
    (tok : Token) (p : Nat) (r : List Char)
    (h : makeWord pos letter chars = (tok, p, r)) : tok.pos = pos ∧ pos ≤ p := by
  have hple := wordBody_pos_le chars pos
  simp only [makeWord] at h
  rcases hwb : wordBody pos chars with ⟨body, p', rest'⟩
  rw [hwb] at h hple
  simp only [Prod.mk.injEq] at h hple
  obtain ⟨htok, hp, _⟩ := h
  subst htok
  exact ⟨rfl, by omega⟩

/-- The position-monotonicity invariant of the lexer loop: a successful
`lexFrom` from position `pos` emits tokens whose positions, prefixed with
`pos`, form a strictly increasing chain. -/
theorem lexFrom_chain :
    ∀ (fuel pos : Nat) (chars : List Char) (toks : List Token),
      lexFrom fuel pos chars = .ok toks →
      List.Chain' (· < ·) (pos :: toks.map Token.pos) := by
  intro fuel
  induction fuel with
  | zero => intro pos chars toks h; simp [lexFrom] at h
  | succ n ih =>
    intro pos chars toks h
    cases chars with
    | nil =>
      simp only [lexFrom, Except.ok.injEq] at h
      subst h
      simp
    | cons ch rest =>
      simp only [lexFrom] at h
      split_ifs at h with hws hc1 hc2 hnum hq hat halpha
      · exact chainLt_mono _ _ _ (Nat.le_succ pos) (ih _ _ _ h)
      · rcases hsc : singleLineComment (pos + 1 + 1) rest.tail with ⟨p, r⟩
        rw [hsc] at h
        have hple := singleLineComment_pos_le rest.tail (pos + 1 + 1)
        rw [hsc] at hple
        exact chainLt_mono _ _ _ (by omega) (ih _ _ _ h)
      · rcases hmc : multiLineComment (pos + 1 + 1) rest.tail with ⟨p, r⟩
        rw [hmc] at h
        have hple := multiLineComment_pos_le rest.tail (pos + 1 + 1)
        rw [hmc] at hple
        exact chainLt_mono _ _ _ (by omega) (ih _ _ _ h)
      · rcases hmn : makeNumber (pos + 1) ch rest with e | ⟨tok, p, r⟩
        · simp [hmn] at h
        · simp only [hmn] at h
          rcases hlx : lexFrom n p r with e | toks'
          · simp [hlx] at h
          · simp only [hlx, Except.ok.injEq] at h
            subst h
            obtain ⟨htp, hple⟩ := makeNumber_ok _ _ _ _ _ _ hmn
            simp only [List.map_cons, htp]
            exact List.chain'_cons.mpr
              ⟨by omega, chainLt_mono _ _ _ hple (ih _ _ _ hlx)⟩
      · rcases hms : makeString (pos + 1) ch rest with e | ⟨tok, p, r⟩
        · simp [hms] at h
        · simp only [hms] at h
          rcases hlx : lexFrom n p r with e | toks'
          · simp [hlx] at h
          · simp only [hlx, Except.ok.injEq] at h
            subst h
            obtain ⟨htp, hple⟩ := makeString_ok _ _ _ _ _ _ hms
            simp only [List.map_cons, htp]
            exact List.chain'_cons.mpr
              ⟨by omega, chainLt_mono _ _ _ hple (ih _ _ _ hlx)⟩
      · rcases hml : makeLabel (pos + 1) rest with e | ⟨tok, p, r⟩
        · simp [hml] at h
        · simp only [hml] at h
          rcases hlx : lexFrom n p r with e | toks'
          · simp [hlx] at h
          · simp only [hlx, Except.ok.injEq] at h
            subst h
            obtain ⟨htp, hple⟩ := makeLabel_ok _ _ _ _ _ hml
            simp only [List.map_cons, htp]
            exact List.chain'_cons.mpr
              ⟨by omega, chainLt_mono _ _ _ hple (ih _ _ _ hlx)⟩
      · rcases hmw : makeWord (pos + 1) ch rest with ⟨tok, p, r⟩
        rw [hmw] at h
        rcases hlx : lexFrom n p r with e | toks'
        · simp [hlx] at h
        · simp only [hlx, Except.ok.injEq] at h
          subst h
          obtain ⟨htp, hple⟩ := makeWord_ok _ _ _ _ _ _ hmw
          simp only [List.map_cons, htp]
          exact List.chain'_cons.mpr
            ⟨by omega, chainLt_mono _ _ _ hple (ih _ _ _ hlx)⟩

/-- **C10** (confirmed).  On every input on which `Lexer::lex` succeeds,
the emitted tokens have strictly increasing `position` fields in emission
order, and every position is at least 1 (the counter is 1-based and
pre-incremented). -/
theorem c10_positions_strictly_increasing (s : Str) (toks : List Token)
    (h : lex s = .ok toks) :
    List.Chain' (· < ·) (toks.map Token.pos) ∧ ∀ t ∈ toks, 1 ≤ t.pos := by
  have hch : List.Chain' (· < ·) (0 :: toks.map Token.pos) :=
    lexFrom_chain _ _ _ _ h
  have hpw := (List.chain'_iff_pairwise).mp hch
  rw [List.pairwise_cons] at hpw
  refine ⟨(List.chain'_iff_pairwise).mpr hpw.2, ?_⟩
  intro t ht
  have := hpw.1 t.pos (List.mem_map_of_mem Token.pos ht)
  omega

/-- Witness for C10: the input `push 1`. -/
theorem c10_positions_witness :
    List.Chain' (· < ·)
        (([⟨.Push, 1⟩, ⟨.IntegerLiteral 1, 6⟩] : List Token).map Token.pos) ∧
      ∀ t ∈ ([⟨.Push, 1⟩, ⟨.IntegerLiteral 1, 6⟩] : List Token), 1 ≤ t.pos :=
  c10_positions_strictly_increasing "push 1"
    [⟨.Push, 1⟩, ⟨.IntegerLiteral 1, 6⟩] (by decide)



/-- `List.lookup` on an appended association list: the first list wins. -/
theorem lookup_append (key : Str) (m1 m2 : LabelMap) :
    List.lookup key (m1 ++ m2) =
      match List.lookup key m1 with
      | some v => some v
      | none => List.lookup key m2 := by
  induction m1 with
  | nil => simp [List.lookup]
  | cons p m1 ih =>
    rcases p with ⟨a, b⟩
    by_cases hk : key = a
    · simp [List.lookup, hk]
    · have hb : (key == a) = false := by simpa using hk
      simp only [List.cons_append, List.lookup, hb]
      exact ih

/-- The soundness invariant of the label-resolution loop: processing the
remaining tokens `rest` (starting at absolute index `i`) with a pending
stack and a partial table that are both faithful to the already-processed
prefix yields, on success, a table whose entries are exactly the label
tokens of the input, each properly closed by a later `End` token. -/
theorem loadLabels_sound (tokens : List Token) :
    ∀ (rest : List Token) (i : Nat)
      (labelStack : List (Nat × Nat × Str × List Parameter))
      (labels labelsF : LabelMap),
      (∀ k, rest[k]? = tokens[i + k]?) →
      i + rest.length = tokens.length →
      (∀ si sp n ps, (si, sp, n, ps) ∈ labelStack →
        si < i ∧ ∃ t, tokens[si]? = some t ∧ t.kind = .Label n ps) →
      (∀ name lbl, List.lookup name labels = some lbl →
        lbl.start_pos < lbl.end_pos ∧ lbl.end_pos < i ∧
        (∃ t, tokens[lbl.start_pos]? = some t ∧
          t.kind = .Label name lbl.parameters) ∧
        (∃ t, tokens[lbl.end_pos]? = some t ∧ t.kind = .End)) →
      (∀ j t name ps, j < i → tokens[j]? = some t → t.kind = .Label name ps →
        (∃ sp, (j, sp, name, ps) ∈ labelStack) ∨
          (∃ lbl, List.lookup name labels = some lbl ∧ lbl.start_pos = j)) →
      loadLabels rest i labelStack labels = .ok labelsF →
      (∀ name lbl, List.lookup name labelsF = some lbl →
        lbl.start_pos < lbl.end_pos ∧
        (∃ t, tokens[lbl.start_pos]? = some t ∧
          t.kind = .Label name lbl.parameters) ∧
        (∃ t, tokens[lbl.end_pos]? = some t ∧ t.kind = .End)) ∧
      (∀ j t name ps, tokens[j]? = some t → t.kind = .Label name ps →
        ∃ lbl, List.lookup name labelsF = some lbl ∧ lbl.start_pos = j) := by
  intro rest
  induction rest with
  | nil =>
    intro i labelStack labels labelsF hrest hlen hstack hlabels hcov h
    simp only [List.length_nil, Nat.add_zero] at hlen
    cases labelStack with
    | cons e es => simp [loadLabels] at h
    | nil =>
      simp only [loadLabels, Except.ok.injEq] at h
      subst h
      constructor
      · intro name lbl hl
        obtain ⟨h1, _, h3, h4⟩ := hlabels name lbl hl
        exact ⟨h1, h3, h4⟩
      · intro j t name ps hj hk
        have hjlt : j < tokens.length := by
          by_contra hge
          rw [List.getElem?_eq_none (by omega)] at hj
          exact Option.noConfusion hj
        rcases hcov j t name ps (by omega) hj hk with ⟨sp, hmem⟩ | hfound
        · exact absurd hmem (List.not_mem_nil _)
        · exact hfound
  | cons t rest' ih =>
    intro i labelStack labels labelsF hrest hlen hstack hlabels hcov h
    have hti : tokens[i]? = some t := by
      have := hrest 0
      simpa using this.symm
    have hrest' : ∀ k, rest'[k]? = tokens[i + 1 + k]? := by
      intro k
      have := hrest (k + 1)
      simp only [List.getElem?_cons_succ] at this
      rw [this]
      congr 1
      omega
    have hlen' : i + 1 + rest'.length = tokens.length := by
      simp only [List.length_cons] at hlen
      omega
    simp only [loadLabels] at h
    split at h
    · -- `Label name parameters`: push onto the pending stack
      rename_i name parameters hkind
      refine ih (i + 1) _ labels labelsF hrest' hlen' ?_ ?_ ?_ h
      · intro si sp n ps hmem
        rcases List.mem_cons.mp hmem with heq | hmem'
        · simp only [Prod.mk.injEq] at heq
          obtain ⟨e1, e2, e3, e4⟩ := heq
          subst e1
          subst e3
          subst e4
          exact ⟨by omega, t, hti, hkind⟩
        · obtain ⟨hlt, ht⟩ := hstack si sp n ps hmem'
          exact ⟨by omega, ht⟩
      · intro nm lbl hl
        obtain ⟨h1, h2, h3, h4⟩ := hlabels nm lbl hl
        exact ⟨h1, by omega, h3, h4⟩
      · intro j tj nm ps hj hjt hjk
        rcases Nat.lt_succ_iff_lt_or_eq.mp hj with hjlt | hjeq
        · rcases hcov j tj nm ps hjlt hjt hjk with ⟨sp, hmem⟩ | hfound
          · exact Or.inl ⟨sp, List.mem_cons_of_mem _ hmem⟩
          · exact Or.inr hfound
        · subst hjeq
          rw [hti] at hjt
          injection hjt with hjt
          subst hjt
          rw [hkind] at hjk
          injection hjk with hn hp
          subst hn; subst hp
          exact Or.inl ⟨t.pos, List.mem_cons_self _ _⟩
    · -- `End`: pop the stack and insert into the table
      rename_i hkind
      cases hls : labelStack with
      | nil => rw [hls] at h; simp at h
      | cons e stackRest =>
        rcases e with ⟨last_start, last_pos, last_name, last_parameters⟩
        rw [hls] at h
        dsimp only at h
        rcases hins : insertLabel labels last_name
            ⟨last_start, i, last_parameters⟩ with ⟨old, labels'⟩
        cases old with
        | some o =>
          rw [hins] at h
          simp at h
        | none =>
          rw [hins] at h
          dsimp only at h
          have hnone : List.lookup last_name labels = none := by
            by_contra hne
            rcases Option.ne_none_iff_exists'.mp hne with ⟨v, hv⟩
            simp [insertLabel, hv] at hins
          have hlab' : labels' = labels ++ [(last_name,
              ⟨last_start, i, last_parameters⟩)] := by
            simp only [insertLabel, hnone, Prod.mk.injEq] at hins
            exact hins.2.symm
          obtain ⟨hslt, ts, hts, htsk⟩ :=
            hstack last_start last_pos last_name last_parameters
              (by rw [hls]; exact List.mem_cons_self _ _)
          refine ih (i + 1) stackRest labels' labelsF hrest' hlen' ?_ ?_ ?_ h
          · intro si sp n ps hmem
            obtain ⟨hlt, ht⟩ := hstack si sp n ps
              (by rw [hls]; exact List.mem_cons_of_mem _ hmem)
            exact ⟨by omega, ht⟩
          · intro nm lbl hl
            rw [hlab', lookup_append] at hl
            rcases hold : List.lookup nm labels with _ | v
            · rw [hold] at hl
              dsimp only at hl
              simp only [List.lookup] at hl
              split at hl
              · rename_i hnm
                have hnm' : nm = last_name := by simpa using hnm
                injection hl with hl
                subst hl
                subst hnm'
                dsimp only
                exact ⟨by omega, by omega, ⟨ts, hts, htsk⟩, ⟨t, hti, hkind⟩⟩
              · exact Option.noConfusion hl
            · rw [hold] at hl
              dsimp only at hl
              injection hl with hl
              subst hl
              obtain ⟨h1, h2, h3, h4⟩ := hlabels nm v hold
              exact ⟨h1, by omega, h3, h4⟩
          · intro j tj nm ps hj hjt hjk
            rcases Nat.lt_succ_iff_lt_or_eq.mp hj with hjlt | hjeq
            · rcases hcov j tj nm ps hjlt hjt hjk with ⟨sp, hmem⟩ | ⟨lbl, hl, hs⟩
              · rw [hls] at hmem
                rcases List.mem_cons.mp hmem with heq | hmem'
                · simp only [Prod.mk.injEq] at heq
                  obtain ⟨e1, e2, e3, e4⟩ := heq
                  subst e1
                  subst e3
                  subst e4
                  refine Or.inr ⟨⟨j, i, ps⟩, ?_, rfl⟩
                  rw [hlab', lookup_append, hnone]
                  simp [List.lookup]
                · exact Or.inl ⟨sp, hmem'⟩
              · refine Or.inr ⟨lbl, ?_, hs⟩
                rw [hlab', lookup_append, hl]
            · subst hjeq
              rw [hti] at hjt
              injection hjt with hjt
              subst hjt
              rw [hkind] at hjk
              exact absurd hjk (by simp)
    · -- any other token: skip
      rename_i hnotlabel hnotend
      refine ih (i + 1) labelStack labels labelsF hrest' hlen' ?_ ?_ ?_ h
      · intro si sp n ps hmem
        obtain ⟨hlt, ht⟩ := hstack si sp n ps hmem
        exact ⟨by omega, ht⟩
      · intro nm lbl hl
        obtain ⟨h1, h2, h3, h4⟩ := hlabels nm lbl hl
        exact ⟨h1, by omega, h3, h4⟩
      · intro j tj nm ps hj hjt hjk
        rcases Nat.lt_succ_iff_lt_or_eq.mp hj with hjlt | hjeq
        · exact hcov j tj nm ps hjlt hjt hjk
        · subst hjeq
          rw [hti] at hjt
          injection hjt with hjt
          subst hjt
          exact absurd hjk (hnotlabel nm ps)



/-- **C8** (confirmed).  For every token sequence `Code::new` accepts:
the label table's keys correspond bijectively to the `Label` tokens of
the input — every entry's `start_index` carries the `Label(name)` token
(and loaded value) with exactly the entry's parameters, every `Label`
token has exactly one entry, whose `start_index` is its own index, and
two `Label` tokens never share a name — and every entry has
`start_index < end_index` with an `End` token (and loaded value) at
`end_index`. -/
theorem c8_label_table_bijection (tokens : List Token) (code : Code)
    (h : Code.new tokens = .ok code) :
    (∀ (name : Str) (lbl : Label), List.lookup name code.labels = some lbl →
      lbl.start_pos < lbl.end_pos ∧
      (∃ t, tokens[lbl.start_pos]? = some t ∧
        t.kind = .Label name lbl.parameters) ∧
      (∃ t, tokens[lbl.end_pos]? = some t ∧ t.kind = .End) ∧
      (∃ v, code.values[lbl.start_pos]? = some v ∧
        v.kind = .Label name lbl.parameters) ∧
      (∃ v, code.values[lbl.end_pos]? = some v ∧ v.kind = .End)) ∧
    (∀ (i : Nat) (t : Token) (name : Str) (ps : List Parameter),
      tokens[i]? = some t → t.kind = .Label name ps →
      ∃ lbl, List.lookup name code.labels = some lbl ∧ lbl.start_pos = i) ∧
    (∀ (i j : Nat) (ti tj : Token) (name : Str) (psi psj : List Parameter),
      tokens[i]? = some ti → ti.kind = .Label name psi →
      tokens[j]? = some tj → tj.kind = .Label name psj → i = j) := by
  simp only [Code.new] at h
  rcases hload : loadLabels tokens 0 [] [] with e | labelsF
  · rw [hload] at h
    simp at h
  · rw [hload] at h
    dsimp only at h
    rcases hmain : List.lookup "main" labelsF with _ | mainLbl
    · rw [hmain] at h
      simp at h
    · rw [hmain] at h
      dsimp only at h
      simp only [Except.ok.injEq] at h
      obtain ⟨hentries, hcov⟩ :=
        loadLabels_sound tokens tokens 0 [] [] labelsF
          (by intro k; simp)
          (by simp)
          (by intro si sp n ps hm; exact absurd hm (List.not_mem_nil _))
          (by intro name lbl hl; simp [List.lookup] at hl)
          (by intro j t name ps hj hjt hjk; exact absurd hj (Nat.not_lt_zero j))
          hload
      have hlabels : code.labels = labelsF := by rw [← h]
      have hvalues : code.values = tokens.map tokenToValue := by rw [← h]
      refine ⟨?_, ?_, ?_⟩
      · intro name lbl hl
        rw [hlabels] at hl
        obtain ⟨h1, ⟨ts, hts, htsk⟩, ⟨te, hte, htek⟩⟩ := hentries name lbl hl
        refine ⟨h1, ⟨ts, hts, htsk⟩, ⟨te, hte, htek⟩, ?_, ?_⟩
        · refine ⟨tokenToValue ts, ?_, ?_⟩
          · rw [hvalues, List.getElem?_map, hts]
            rfl
          · simp [tokenToValue, htsk]
        · refine ⟨tokenToValue te, ?_, ?_⟩
          · rw [hvalues, List.getElem?_map, hte]
            rfl
          · simp [tokenToValue, htek]
      · intro i t name ps hit hik
        obtain ⟨lbl, hl, hs⟩ := hcov i t name ps hit hik
        exact ⟨lbl, by rw [hlabels]; exact hl, hs⟩
      · intro i j ti tj name psi psj hti htik htj htjk
        obtain ⟨lbl, hli, hsi⟩ := hcov i ti name psi hti htik
        obtain ⟨lbl', hlj, hsj⟩ := hcov j tj name psj htj htjk
        rw [hli] at hlj
        injection hlj with hlj
        subst hlj
        omega

/-- Witness for C8: the accepted program `@main end` and its code
object. -/
theorem c8_label_table_bijection_witness :
    (∀ (name : Str) (lbl : Label), List.lookup name c8Code.labels = some lbl →
      lbl.start_pos < lbl.end_pos ∧
      (∃ t, c8Tokens[lbl.start_pos]? = some t ∧
        t.kind = .Label name lbl.parameters) ∧
      (∃ t, c8Tokens[lbl.end_pos]? = some t ∧ t.kind = .End) ∧
      (∃ v, c8Code.values[lbl.start_pos]? = some v ∧
        v.kind = .Label name lbl.parameters) ∧
      (∃ v, c8Code.values[lbl.end_pos]? = some v ∧ v.kind = .End)) ∧
    (∀ (i : Nat) (t : Token) (name : Str) (ps : List Parameter),
      c8Tokens[i]? = some t → t.kind = .Label name ps →
      ∃ lbl, List.lookup name c8Code.labels = some lbl ∧ lbl.start_pos = i) ∧
    (∀ (i j : Nat) (ti tj : Token) (name : Str) (psi psj : List Parameter),
      c8Tokens[i]? = some ti → ti.kind = .Label name psi →
      c8Tokens[j]? = some tj → tj.kind = .Label name psj → i = j) :=
  c8_label_table_bijection c8Tokens c8Code (by decide)


end DarkVM
